import Mathlib

/-!
Shallow embedding of the moderated-comments Redux store
(`moderatedCommentsReducer` and its selectors) from the conversationai
moderator front end.

The source keeps, per article id and per category id, an Immutable.js
`Map<string, List<string>>` from bucket names to ordered lists of comment
ids.  We model an Immutable `Map` with string keys as an association list
(`mset` replaces the value of an existing key in place, otherwise appends,
exactly as `Map.set` does), and an Immutable `List` as a Lean `List`.

Immutable.js operations that can throw (an `updateIn` whose updater
receives `undefined` because the key path is missing, and then calls
`.push`/`.findIndex` on it) are modelled with `Except Unit`: an
`Except.error ()` result corresponds to the reducer throwing, in which
case Redux leaves the previous state in place.
-/

/-- First-match lookup: Immutable `Map.get`. -/
def mget {α : Type} : List (String × α) → String → Option α
  | [], _ => none
  | (k, v) :: rest, key => if k = key then some v else mget rest key

/-- Immutable `Map.set`: replace the value of an existing key in place,
otherwise append the new entry. -/
def mset {α : Type} : List (String × α) → String → α → List (String × α)
  | [], key, val => [(key, val)]
  | (k, v) :: rest, key, val =>
    if k = key then (key, val) :: rest else (k, v) :: mset rest key val

/-- Immutable `List.findIndex(item => item === commentId)`: the index of the
first occurrence, or `-1` when absent. -/
def findIndex (l : List String) (x : String) : Int :=
  if x ∈ l then (l.indexOf x : Int) else -1

/-- Immutable `List.delete(i)` = `splice(i, 1)`: a negative index counts back
from the end (`delete(-1)` drops the last element of a non-empty list,
clamped at 0); an index at or past the end is a no-op. -/
def listDelete (l : List String) (i : Int) : List String :=
  let start : Nat := if i < 0 then (i + l.length).toNat else i.toNat
  l.take start ++ l.drop (start + 1)

/-- The removal updater of the reducer:
`moderated.delete(moderated.findIndex(item => item === commentId))`. -/
def removeComment (l : List String) (commentId : String) : List String :=
  listDelete l (findIndex l commentId)

/-- `item.push(commentId)` on an Immutable `List`. -/
def pushComment (commentId : String) (l : List String) : List String :=
  l ++ [commentId]

/-- One scope's `Map<string, List<string>>` from bucket name to comment ids. -/
abbrev BucketMap := List (String × List String)

/-- `Map<string, Map<string, List<string>>>` from scope key to its buckets. -/
abbrev ScopeMap := List (String × BucketMap)

/-- `ACTION_PLURAL` lookup table; `none` models a `undefined` result for a
key the table does not contain. -/
def ACTION_PLURAL (k : String) : Option String :=
  if k = "highlight" then some "highlighted"
  else if k = "approve" then some "approved"
  else if k = "defer" then some "deferred"
  else if k = "reject" then some "rejected"
  else if k = "tag" then some "tagged"
  else none

/-- `map.updateIn([k1, k2], f)` on a two-level scope map.  When either key
is missing Immutable hands the updater `undefined`; every updater in the
reducer then throws (it calls `.push` or `.findIndex`/`.delete` on it), so
the missing-key cases are errors. -/
def updateIn2 (m : ScopeMap) (k1 k2 : String) (f : List String → List String) :
    Except Unit ScopeMap :=
  match mget m k1 with
  | none => Except.error ()
  | some inner =>
    match mget inner k2 with
    | none => Except.error ()
    | some l => Except.ok (mset m k1 (mset inner k2 (f l)))

/-- The second `updateIn` of the articles highlight branch uses the
three-key path `['articles', articleId, 'approved']` on the two-level
articles map.  Descending: the first key selects (at best) a bucket map,
the second key selects (at best) a `List` of ids, and the third key then
indexes that `List` with a string key, which Immutable answers with
`undefined`; if either of the first two keys is missing the updater also
receives `undefined`.  In every branch the updater `item.push(commentId)`
is applied to `undefined` and throws. -/
def updateIn3Push (m : ScopeMap) (k1 k2 : String) (_k3 _commentId : String) :
    Except Unit ScopeMap :=
  match mget m k1 with
  | none => Except.error ()
  | some inner =>
    match mget inner k2 with
    | none => Except.error ()
    | some _l => Except.error ()

/-- `shouldRemoveFromList` exactly as computed in both transition handlers. -/
def shouldRemoveFromList (currentModeration moderationAction : String) : Bool :=
  currentModeration ≠ "batched" &&
  currentModeration ≠ "automated" &&
  ((currentModeration = "highlighted" && moderationAction = "highlight") ||
   (currentModeration ≠ "highlighted" && moderationAction ≠ "highlight"))

/-- The `switch (moderationAction)` statement of the
`setCommentsModerationForArticlesAction` handler.  JavaScript evaluates the
case label `'reject' || 'defer'` to the string `'reject'`, so only
`'reject'` matches it and `'defer'` falls through to `default`.  In the
`'reject'` and `default` branches the handler computes
`newState.articles.updateIn(...)` but never assigns the result back, so a
successful push is discarded (while a throwing one still aborts the
dispatch); in the `'highlight'` branch both `updateIn` results are
assigned, but the second uses the path `['articles', articleId,
'approved']` and always throws (see `updateIn3Push`). -/
def articleInsert (articleId moderationAction currentModeration : String)
    (articles1 : ScopeMap) (commentId : String) : Except Unit ScopeMap :=
  if moderationAction = "reject" then
    match ACTION_PLURAL moderationAction with
    | none => Except.error ()
    | some bucket =>
      match updateIn2 articles1 articleId bucket (pushComment commentId) with
      | Except.error e => Except.error e
      | Except.ok _discarded => Except.ok articles1
  else if moderationAction = "highlight" then
    if currentModeration = "highlighted" then Except.ok articles1
    else
      match ACTION_PLURAL moderationAction with
      | none => Except.error ()
      | some bucket =>
        match updateIn2 articles1 articleId bucket (pushComment commentId) with
        | Except.error e => Except.error e
        | Except.ok articles2 =>
          updateIn3Push articles2 "articles" articleId "approved" commentId
  else if moderationAction = "reset" then Except.ok articles1
  else
    match ACTION_PLURAL moderationAction with
    | none => Except.error ()
    | some bucket =>
      match updateIn2 articles1 articleId bucket (pushComment commentId) with
      | Except.error e => Except.error e
      | Except.ok _discarded => Except.ok articles1

/-- One iteration of the `commentIds.forEach` loop of the
`setCommentsModerationForArticlesAction` handler: the conditional removal
step followed by the insertion switch. -/
def articleStep (articleId moderationAction currentModeration : String)
    (articles : ScopeMap) (commentId : String) : Except Unit ScopeMap :=
  let afterRemove : Except Unit ScopeMap :=
    if shouldRemoveFromList currentModeration moderationAction then
      updateIn2 articles articleId currentModeration
        (fun moderated => listDelete moderated (findIndex moderated commentId))
    else Except.ok articles
  match afterRemove with
  | Except.error e => Except.error e
  | Except.ok articles1 =>
    articleInsert articleId moderationAction currentModeration articles1 commentId

/-- The `switch (moderationAction)` statement of the
`setCommentsModerationForCategoriesAction` handler.  Same structure as
`articleInsert`, but every `updateIn` result is assigned back to
`newState.categories`, and the highlight branch's second `updateIn` uses
the correct two-key path `[category, 'approved']`. -/
def categoryInsert (category moderationAction currentModeration : String)
    (categories1 : ScopeMap) (commentId : String) : Except Unit ScopeMap :=
  if moderationAction = "reject" then
    match ACTION_PLURAL moderationAction with
    | none => Except.error ()
    | some bucket => updateIn2 categories1 category bucket (pushComment commentId)
  else if moderationAction = "highlight" then
    if currentModeration = "highlighted" then Except.ok categories1
    else
      match ACTION_PLURAL moderationAction with
      | none => Except.error ()
      | some bucket =>
        match updateIn2 categories1 category bucket (pushComment commentId) with
        | Except.error e => Except.error e
        | Except.ok categories2 =>
          updateIn2 categories2 category "approved" (pushComment commentId)
  else if moderationAction = "reset" then Except.ok categories1
  else
    match ACTION_PLURAL moderationAction with
    | none => Except.error ()
    | some bucket => updateIn2 categories1 category bucket (pushComment commentId)

/-- One iteration of the `commentIds.forEach` loop of the
`setCommentsModerationForCategoriesAction` handler: the conditional removal
step followed by the insertion switch. -/
def categoryStep (category moderationAction currentModeration : String)
    (categories : ScopeMap) (commentId : String) : Except Unit ScopeMap :=
  let afterRemove : Except Unit ScopeMap :=
    if shouldRemoveFromList currentModeration moderationAction then
      updateIn2 categories category currentModeration
        (fun moderated => listDelete moderated (findIndex moderated commentId))
    else Except.ok categories
  match afterRemove with
  | Except.error e => Except.error e
  | Except.ok categories1 =>
    categoryInsert category moderationAction currentModeration categories1 commentId

/-- `IModeratedCommentsState` of the store. -/
structure IModeratedCommentsState where
  isLoading : Bool
  articles : ScopeMap
  categories : ScopeMap
deriving DecidableEq, Repr

/-- `initialState`. -/
def initialState : IModeratedCommentsState :=
  { isLoading := true, articles := [], categories := [] }

/-- Modelled from the spec: `IModeratedComments`, the payload shape produced
by the external data service (`fetchModeratedCommentIdsForArticle` /
`fetchModeratedCommentIdsForCategory`), which is not part of this excerpt.
The spec's data-service contract gives the seven ordered id lists. -/
structure IModeratedComments where
  approved : List String
  highlighted : List String
  rejected : List String
  deferred : List String
  flagged : List String
  batched : List String
  automated : List String
deriving DecidableEq, Repr

/-- `fromJS(moderatedComments)`: the seven-bucket payload as an Immutable
map. -/
def fromJS (m : IModeratedComments) : BucketMap :=
  [("approved", m.approved), ("highlighted", m.highlighted),
   ("rejected", m.rejected), ("deferred", m.deferred),
   ("flagged", m.flagged), ("batched", m.batched),
   ("automated", m.automated)]

/-- The `loadModeratedCommentsStart` handler. -/
def startLoad (s : IModeratedCommentsState) : IModeratedCommentsState :=
  { s with isLoading := true }

/-- The `loadModeratedCommentsForArticleComplete` handler. -/
def completeLoadArticle (s : IModeratedCommentsState) (articleId : String)
    (m : IModeratedComments) : IModeratedCommentsState :=
  { s with isLoading := false, articles := mset s.articles articleId (fromJS m) }

/-- The `loadModeratedCommentsForCategoryComplete` handler. -/
def completeLoadCategory (s : IModeratedCommentsState) (category : String)
    (m : IModeratedComments) : IModeratedCommentsState :=
  { s with isLoading := false, categories := mset s.categories category (fromJS m) }

/-- `completeLoad(scope, isCategory, buckets)` as the spec names the load
operation: dispatch to the article or category handler. -/
def completeLoad (s : IModeratedCommentsState) (scope : String)
    (isCategory : Bool) (m : IModeratedComments) : IModeratedCommentsState :=
  if isCategory then completeLoadCategory s scope m
  else completeLoadArticle s scope m

/-- The `setCommentsModerationForArticlesAction` handler: fold the per-id
step over `commentIds`; a thrown step aborts the whole dispatch. -/
def setCommentsModerationForArticles (s : IModeratedCommentsState)
    (articleId : String) (commentIds : List String)
    (moderationAction currentModeration : String) :
    Except Unit IModeratedCommentsState :=
  match commentIds.foldlM (articleStep articleId moderationAction currentModeration)
      s.articles with
  | Except.error e => Except.error e
  | Except.ok a => Except.ok { s with articles := a }

/-- The `setCommentsModerationForCategoriesAction` handler. -/
def setCommentsModerationForCategories (s : IModeratedCommentsState)
    (category : String) (commentIds : List String)
    (moderationAction currentModeration : String) :
    Except Unit IModeratedCommentsState :=
  match commentIds.foldlM (categoryStep category moderationAction currentModeration)
      s.categories with
  | Except.error e => Except.error e
  | Except.ok c => Except.ok { s with categories := c }

/-- `transition(scope, isCategory, commentIds, action, previousStatus)` at
the Redux dispatch level: if the reducer throws, the store keeps the
previous state. -/
def applyTransition (s : IModeratedCommentsState) (scope : String)
    (isCategory : Bool) (commentIds : List String)
    (moderationAction currentModeration : String) : IModeratedCommentsState :=
  match (if isCategory then
          setCommentsModerationForCategories s scope commentIds
            moderationAction currentModeration
        else
          setCommentsModerationForArticles s scope commentIds
            moderationAction currentModeration) with
  | Except.ok t => t
  | Except.error _ => s

/-- The seven bucket names, in the order of the selector's fallback map. -/
def sevenNames : List String :=
  ["approved", "highlighted", "rejected", "deferred", "flagged", "batched",
   "automated"]

/-- The all-empty fallback `Map` returned by `getModeratedComments` for a
scope that is not present. -/
def emptyBuckets : BucketMap :=
  [("approved", []), ("highlighted", []), ("rejected", []), ("deferred", []),
   ("flagged", []), ("batched", []), ("automated", [])]

/-- `getModeratedComments(state, params)`: the stored bucket map when the
scope key is present in the map selected by `isArticleContext(params)`,
else the synthesized all-empty bucket map. -/
def getModeratedComments (s : IModeratedCommentsState)
    (isArticleCtx : Bool) (contextId : String) : BucketMap :=
  if isArticleCtx then
    match mget s.articles contextId with
    | some m => m
    | none => emptyBuckets
  else
    match mget s.categories contextId with
    | some m => m
    | none => emptyBuckets

/-- Convenience read of one scope's bucket map (`isCategory` selects the
map, mirroring the reducer's side split). -/
def scopeBuckets (s : IModeratedCommentsState) (isCategory : Bool)
    (scope : String) : Option BucketMap :=
  if isCategory then mget s.categories scope else mget s.articles scope

/-- Convenience read of one bucket of one scope. -/
def bucketOf (s : IModeratedCommentsState) (isCategory : Bool)
    (scope bucket : String) : Option (List String) :=
  match scopeBuckets s isCategory scope with
  | none => none
  | some bm => mget bm bucket

/-! ### Basic lemmas about the Immutable map and list operations -/

theorem mget_mset_self {α : Type} (m : List (String × α)) (k : String) (v : α) :
    mget (mset m k v) k = some v := by
  induction m with
  | nil => simp [mset, mget]
  | cons p rest ih =>
    obtain ⟨k1, v1⟩ := p
    by_cases h : k1 = k
    · subst h
      simp [mset, mget]
    · simp [mset, mget, h, ih]

theorem mget_mset_ne {α : Type} (m : List (String × α)) (k k2 : String) (v : α)
    (h : k2 ≠ k) : mget (mset m k v) k2 = mget m k2 := by
  have hk : ¬(k = k2) := fun he => h he.symm
  induction m with
  | nil => simp [mset, mget, hk]
  | cons p rest ih =>
    obtain ⟨k1, v1⟩ := p
    by_cases h1 : k1 = k
    · subst h1
      simp [mset, mget, hk]
    · by_cases h2 : k1 = k2
      · subst h2
        simp [mset, mget, h1]
      · simp [mset, mget, h1, h2, ih]

theorem keys_mset {α : Type} (m : List (String × α)) (k : String) (v : α)
    (h : (mget m k).isSome) : (mset m k v).map Prod.fst = m.map Prod.fst := by
  induction m with
  | nil => simp [mget] at h
  | cons p rest ih =>
    obtain ⟨k1, v1⟩ := p
    by_cases h1 : k1 = k
    · subst h1
      simp [mset]
    · simp only [mget, if_neg h1] at h
      simp [mset, h1, ih h]

theorem take_drop_indexOf (x : String) : (l : List String) → x ∈ l →
    l.take (l.indexOf x) ++ l.drop (l.indexOf x + 1) = l.erase x
  | a :: l, h => by
    by_cases hax : a = x
    · subst hax
      simp [List.indexOf_cons_self]
    · have hxl : x ∈ l := by
        cases h with
        | head => exact absurd rfl hax
        | tail _ h2 => exact h2
      have hne : (a == x) = false := by simp [hax]
      rw [List.indexOf_cons, hne, List.erase_cons_tail]
      · simp only [cond_false]
        simp only [List.take_succ_cons, List.drop_succ_cons, List.cons_append]
        rw [take_drop_indexOf x l hxl]
      · simpa using hax

theorem removeComment_of_mem {l : List String} {x : String} (h : x ∈ l) :
    removeComment l x = l.erase x := by
  have hnonneg : ¬((l.indexOf x : Int) < 0) :=
    Int.not_lt.mpr (Int.natCast_nonneg _)
  simp only [removeComment, findIndex, listDelete, if_pos h, if_neg hnonneg,
    Int.toNat_natCast]
  exact take_drop_indexOf x l h

theorem not_mem_erase_of_count_one {l : List String} {x : String}
    (h : l.count x = 1) : x ∉ l.erase x := by
  intro hm
  have h2 := List.count_erase_self x l
  rw [h] at h2
  have := List.count_pos_iff.mpr hm
  omega

theorem updateIn2_eq_ok {m : ScopeMap} {k1 k2 : String}
    {f : List String → List String} {inner : BucketMap} {l : List String}
    (h1 : mget m k1 = some inner) (h2 : mget inner k2 = some l) :
    updateIn2 m k1 k2 f = Except.ok (mset m k1 (mset inner k2 (f l))) := by
  simp [updateIn2, h1, h2]

/-! ### Concrete fixtures used by counterexamples and failing-input
evaluations -/

def payloadEmpty : IModeratedComments := ⟨[], [], [], [], [], [], []⟩

def payloadRejectedC1 : IModeratedComments := ⟨[], [], ["c1"], [], [], [], []⟩

def payloadHighlightedC1 : IModeratedComments := ⟨[], ["c1"], [], [], [], [], []⟩

def payloadApprovedC1 : IModeratedComments := ⟨["c1"], [], [], [], [], [], []⟩

def payloadRejectedXY : IModeratedComments := ⟨[], [], ["x", "y"], [], [], [], []⟩

def payloadFlaggedC1 : IModeratedComments := ⟨[], [], [], [], ["c1"], [], []⟩

def payloadRejC1DefC2 : IModeratedComments := ⟨[], [], ["c1"], ["c2"], [], [], []⟩

def payloadThreeBatch : IModeratedComments :=
  ⟨["c3"], [], ["c1"], ["c2"], [], [], []⟩

/-! ### Claim C2: failing-input evaluation -/

/-- C2: the claim says a `reject` transition appends the id to the
`rejected` bucket and a `defer` transition appends it to the `deferred`
bucket for every scope.  On an article scope the handler discards the
result of `updateIn`, so neither append happens: with article `a1` loaded
all-empty and `previousStatus = 'batched'` (no removal step), both
transitions leave the store state completely unchanged and the target
buckets stay empty. -/
theorem c2_article_reject_defer_unchanged :
    applyTransition (completeLoadArticle initialState "a1" payloadEmpty)
      "a1" false ["c1"] "reject" "batched"
      = completeLoadArticle initialState "a1" payloadEmpty ∧
    applyTransition (completeLoadArticle initialState "a1" payloadEmpty)
      "a1" false ["c1"] "defer" "batched"
      = completeLoadArticle initialState "a1" payloadEmpty ∧
    bucketOf (applyTransition (completeLoadArticle initialState "a1" payloadEmpty)
      "a1" false ["c1"] "reject" "batched") false "a1" "rejected" = some [] ∧
    bucketOf (applyTransition (completeLoadArticle initialState "a1" payloadEmpty)
      "a1" false ["c1"] "defer" "batched") false "a1" "deferred" = some [] := by
  decide

/-! ### Claim C3: failing-input evaluation -/

/-- C3: the spec's own scenario.  After `completeLoad('a1', false,
{rejected: ['c1'], ...})` and `transition('a1', false, ['c1'], 'approve',
'rejected')`, the claim expects `rejected = []` and `approved = ['c1']`.
The removal step runs (and is assigned), so `rejected = []`, but the
articles handler discards the `updateIn` result of the insertion, so
`approved` stays `[]` instead of becoming `['c1']`. -/
theorem c3_article_approve_scenario :
    bucketOf (applyTransition (completeLoadArticle initialState "a1" payloadRejectedC1)
      "a1" false ["c1"] "approve" "rejected") false "a1" "rejected" = some [] ∧
    bucketOf (applyTransition (completeLoadArticle initialState "a1" payloadRejectedC1)
      "a1" false ["c1"] "approve" "rejected") false "a1" "approved" = some [] := by
  decide

/-! ### Claim C4: failing-input evaluation -/

/-- C4: the claim says a `highlight` transition with `previousStatus ≠
'highlighted'` appends the id to both the `highlighted` and `approved`
buckets of that scope.  On an article scope the second `updateIn` of the
highlight branch uses the path `['articles', articleId, 'approved']`, whose
updater receives `undefined` and throws, so the whole dispatch fails and
the store keeps the previous state: nothing is appended to either bucket. -/
theorem c4_article_highlight_error :
    setCommentsModerationForArticles
      (completeLoadArticle initialState "a1" payloadApprovedC1)
      "a1" ["c1"] "highlight" "approved" = Except.error () ∧
    applyTransition (completeLoadArticle initialState "a1" payloadApprovedC1)
      "a1" false ["c1"] "highlight" "approved"
      = completeLoadArticle initialState "a1" payloadApprovedC1 := by
  exact ⟨rfl, by decide⟩

/-! ### Claim C5: failing-input evaluation -/

/-- C5: the claim says that when the id is absent from the bucket named by
`previousStatus` the removal step removes no element.  The handler computes
`moderated.delete(moderated.findIndex(...))`; `findIndex` yields `-1` for
an absent id and Immutable's `List.delete(-1)` removes the last element.
With category `cat1` loaded with `rejected = ['x', 'y']`, transitioning the
absent id `c9` with `previousStatus = 'rejected'` deletes `'y'`. -/
theorem c5_absent_id_removes_last :
    bucketOf (applyTransition (completeLoadCategory initialState "cat1" payloadRejectedXY)
      "cat1" true ["c9"] "approve" "rejected") true "cat1" "rejected"
      = some ["x"] := by
  decide

/-! ### Claim C1: counterexample -/

/-- C1 is false as stated: with category `cat` loaded with `highlighted =
['c1']`, a `highlight` transition with `previousStatus = 'highlighted'` is
not a no-op — the removal condition `(currentModeration === 'highlighted'
&& moderationAction === 'highlight')` holds, so the id is removed from the
`highlighted` bucket (and the insertion is skipped). -/
theorem c1_counterexample :
    applyTransition (completeLoadCategory initialState "cat" payloadHighlightedC1)
      "cat" true ["c1"] "highlight" "highlighted"
      ≠ completeLoadCategory initialState "cat" payloadHighlightedC1 ∧
    bucketOf (applyTransition (completeLoadCategory initialState "cat" payloadHighlightedC1)
      "cat" true ["c1"] "highlight" "highlighted") true "cat" "highlighted"
      = some [] := by
  decide

/-! ### Claim C6: counterexample -/

/-- C6 is false as stated for `previousStatus = 'highlighted'`: the removal
condition requires either both or neither of `previousStatus`/`action` to
be about highlighting, so `reset` from `highlighted` removes nothing.  With
category `cat` loaded with `highlighted = ['c1']`, the transition leaves
the state unchanged and the id is still in `highlighted`. -/
theorem c6_counterexample :
    applyTransition (completeLoadCategory initialState "cat" payloadHighlightedC1)
      "cat" true ["c1"] "reset" "highlighted"
      = completeLoadCategory initialState "cat" payloadHighlightedC1 ∧
    bucketOf (applyTransition (completeLoadCategory initialState "cat" payloadHighlightedC1)
      "cat" true ["c1"] "reset" "highlighted") true "cat" "highlighted"
      = some ["c1"] := by
  decide

/-! ### Claim C9: counterexample -/

/-- C9 is false as stated: the removal guard only excludes `batched` and
`automated`, not `flagged`, so a transition with `previousStatus =
'flagged'` removes the id from the `flagged` bucket.  With category `cat`
loaded with `flagged = ['c1']`, approving `c1` from `flagged` empties the
`flagged` bucket. -/
theorem c9_counterexample :
    bucketOf (applyTransition (completeLoadCategory initialState "cat" payloadFlaggedC1)
      "cat" true ["c1"] "approve" "flagged") true "cat" "flagged"
      = some [] := by
  decide

/-! ### Claim C8: counterexample -/

/-- C8 is false as stated: with category `cat` loaded with `approved =
['c3']`, `rejected = ['c1']`, `deferred = ['c2']`, applying the batch of
three transitions (`c1`: approve from rejected, `c2`: highlight from
deferred, `c3`: reset from approved) — three distinct ids, three distinct
previous statuses, three distinct actions — in two different orders
produces different final states: the `approved` bucket ends as
`['c1', 'c2']` in one order and `['c2', 'c1']` in the other. -/
theorem c8_counterexample :
    applyTransition (applyTransition (applyTransition
        (completeLoadCategory initialState "cat" payloadThreeBatch)
        "cat" true ["c1"] "approve" "rejected")
        "cat" true ["c2"] "highlight" "deferred")
        "cat" true ["c3"] "reset" "approved"
      ≠ applyTransition (applyTransition (applyTransition
        (completeLoadCategory initialState "cat" payloadThreeBatch)
        "cat" true ["c3"] "reset" "approved")
        "cat" true ["c2"] "highlight" "deferred")
        "cat" true ["c1"] "approve" "rejected" ∧
    bucketOf (applyTransition (applyTransition (applyTransition
        (completeLoadCategory initialState "cat" payloadThreeBatch)
        "cat" true ["c1"] "approve" "rejected")
        "cat" true ["c2"] "highlight" "deferred")
        "cat" true ["c3"] "reset" "approved") true "cat" "approved"
      = some ["c1", "c2"] ∧
    bucketOf (applyTransition (applyTransition (applyTransition
        (completeLoadCategory initialState "cat" payloadThreeBatch)
        "cat" true ["c3"] "reset" "approved")
        "cat" true ["c2"] "highlight" "deferred")
        "cat" true ["c1"] "approve" "rejected") true "cat" "approved"
      = some ["c2", "c1"] := by
  decide

/-! ### Generic lemmas about steps and folds -/

/-- Reading one bucket of one scope directly on a `ScopeMap`. -/
def bucketIn (m : ScopeMap) (scope bucket : String) : Option (List String) :=
  match mget m scope with
  | none => none
  | some bm => mget bm bucket

theorem bucketOf_eq_bucketIn (s : IModeratedCommentsState) (isCategory : Bool)
    (scope bucket : String) :
    bucketOf s isCategory scope bucket
      = bucketIn (if isCategory then s.categories else s.articles) scope bucket := by
  cases isCategory <;> simp [bucketOf, scopeBuckets, bucketIn]

theorem foldlM_single {α β : Type} (f : β → α → Except Unit β) (b : β) (a : α) :
    [a].foldlM f b = f b a := by
  cases h : f b a <;> simp [List.foldlM, h]

theorem updateIn2_ok_inv {m m2 : ScopeMap} {k1 k2 : String}
    {f : List String → List String}
    (h : updateIn2 m k1 k2 f = Except.ok m2) :
    ∃ inner l, mget m k1 = some inner ∧ mget inner k2 = some l ∧
      m2 = mset m k1 (mset inner k2 (f l)) := by
  cases h1 : mget m k1 with
  | none => simp [updateIn2, h1] at h
  | some inner =>
    cases h2 : mget inner k2 with
    | none => simp [updateIn2, h1, h2] at h
    | some l =>
      rw [updateIn2_eq_ok h1 h2] at h
      injection h with h3
      exact ⟨inner, l, rfl, h2, h3.symm⟩

theorem bucketIn_updateIn2_ne {m m2 : ScopeMap} {k1 k2 : String}
    {f : List String → List String}
    (h : updateIn2 m k1 k2 f = Except.ok m2) (sc b : String)
    (hne : sc ≠ k1 ∨ b ≠ k2) :
    bucketIn m2 sc b = bucketIn m sc b := by
  obtain ⟨inner, l, h1, h2, hm2⟩ := updateIn2_ok_inv h
  subst hm2
  by_cases hsc : sc = k1
  · subst hsc
    have hb : b ≠ k2 := by
      cases hne with
      | inl hx => exact absurd rfl hx
      | inr hx => exact hx
    simp [bucketIn, mget_mset_self, h1, mget_mset_ne _ _ _ _ hb]
  · simp [bucketIn, mget_mset_ne _ _ _ _ hsc]

theorem bucketIn_updateIn2_self {m m2 : ScopeMap} {k1 k2 : String}
    {f : List String → List String}
    (h : updateIn2 m k1 k2 f = Except.ok m2) :
    ∃ l, bucketIn m k1 k2 = some l ∧ bucketIn m2 k1 k2 = some (f l) := by
  obtain ⟨inner, l, h1, h2, hm2⟩ := updateIn2_ok_inv h
  subst hm2
  exact ⟨l, by simp [bucketIn, h1, h2], by simp [bucketIn, mget_mset_self]⟩

theorem updateIn2_keys {m m2 : ScopeMap} {k1 k2 : String}
    {f : List String → List String}
    (h : updateIn2 m k1 k2 f = Except.ok m2) (sc : String) :
    (mget m2 sc).isSome = (mget m sc).isSome ∧
    (∀ bm2 bm, mget m2 sc = some bm2 → mget m sc = some bm →
      bm2.map Prod.fst = bm.map Prod.fst) := by
  obtain ⟨inner, l, h1, h2, hm2⟩ := updateIn2_ok_inv h
  subst hm2
  by_cases hsc : sc = k1
  · subst hsc
    refine ⟨by simp [mget_mset_self, h1], ?_⟩
    intro bm2 bm hbm2 hbm
    rw [mget_mset_self] at hbm2
    rw [h1] at hbm
    cases hbm2
    cases hbm
    exact keys_mset inner k2 _ (by simp [h2])
  · rw [mget_mset_ne _ _ _ _ hsc]
    exact ⟨rfl, fun bm2 bm hbm2 hbm => by rw [hbm2] at hbm; cases hbm; rfl⟩

theorem foldlM_preserves {β : Type} (f : β → String → Except Unit β)
    (P : β → β → Prop) (hrefl : ∀ m, P m m)
    (htrans : ∀ a b c, P a b → P b c → P a c)
    (hf : ∀ m m2 a, f m a = Except.ok m2 → P m m2) :
    ∀ (ids : List String) (m m2 : β), ids.foldlM f m = Except.ok m2 → P m m2
  | [], m, m2, h => by
    simp only [List.foldlM_nil] at h
    cases h
    exact hrefl m
  | a :: ids, m, m2, h => by
    rw [List.foldlM_cons] at h
    cases hf1 : f m a with
    | error e => rw [hf1] at h; exact Except.noConfusion h
    | ok m1 =>
      rw [hf1] at h
      have hrest : ids.foldlM f m1 = Except.ok m2 := by
        simpa using h
      exact htrans m m1 m2 (hf m m1 a hf1)
        (foldlM_preserves f P hrefl htrans hf ids m1 m2 hrest)

theorem ACTION_PLURAL_ne_flagged {a b : String} (h : ACTION_PLURAL a = some b) :
    b ≠ "flagged" := by
  unfold ACTION_PLURAL at h
  split_ifs at h <;> cases h <;> decide

/-! ### Claim C1: amended theorem -/

/-- C1 (amended): for every scope (article or category) whose `highlighted`
bucket contains the id, `transition` with action `highlight` and
`previousStatus = 'highlighted'` removes the first occurrence of the id
from the scope's `highlighted` bucket and changes no other bucket of any
scope (the insertion step is skipped, so nothing is added anywhere). -/
theorem c1_highlight_on_highlighted_removes
    (s : IModeratedCommentsState) (scope : String) (isCategory : Bool)
    (commentId : String) (bm : BucketMap) (l : List String)
    (hs : scopeBuckets s isCategory scope = some bm)
    (hb : mget bm "highlighted" = some l)
    (hm : commentId ∈ l) :
    bucketOf (applyTransition s scope isCategory [commentId] "highlight" "highlighted")
        isCategory scope "highlighted" = some (l.erase commentId) ∧
    ∀ isCat2 scope2 b,
      (isCat2 = isCategory → scope2 = scope → b ≠ "highlighted") →
      bucketOf (applyTransition s scope isCategory [commentId] "highlight" "highlighted")
        isCat2 scope2 b = bucketOf s isCat2 scope2 b := by
  have hrm : shouldRemoveFromList "highlighted" "highlight" = true := by decide
  cases isCategory with
  | true =>
    simp only [scopeBuckets, if_pos trivial] at hs
    have hstep : categoryStep scope "highlight" "highlighted" s.categories commentId
        = Except.ok (mset s.categories scope (mset bm "highlighted" (removeComment l commentId))) := by
      simp only [categoryStep, hrm, if_pos trivial, updateIn2_eq_ok hs hb]
      simp [removeComment, categoryInsert]
    have htr : applyTransition s scope true [commentId] "highlight" "highlighted"
        = { s with categories := mset s.categories scope (mset bm "highlighted" (removeComment l commentId)) } := by
      simp only [applyTransition, setCommentsModerationForCategories, foldlM_single, hstep]
      simp
    rw [htr]
    constructor
    · simp [bucketOf, scopeBuckets, mget_mset_self, removeComment_of_mem hm]
    · intro isCat2 scope2 b hcond
      cases isCat2 with
      | false => simp [bucketOf, scopeBuckets]
      | true =>
        by_cases hsc : scope2 = scope
        · subst hsc
          have hbne : b ≠ "highlighted" := hcond rfl rfl
          simp [bucketOf, scopeBuckets, mget_mset_self, hs,
            mget_mset_ne _ _ _ _ hbne]
        · simp [bucketOf, scopeBuckets, mget_mset_ne _ _ _ _ hsc]
  | false =>
    simp only [scopeBuckets, Bool.false_eq_true, if_false] at hs
    have hstep : articleStep scope "highlight" "highlighted" s.articles commentId
        = Except.ok (mset s.articles scope (mset bm "highlighted" (removeComment l commentId))) := by
      simp only [articleStep, hrm, if_pos trivial, updateIn2_eq_ok hs hb]
      simp [removeComment, articleInsert]
    have htr : applyTransition s scope false [commentId] "highlight" "highlighted"
        = { s with articles := mset s.articles scope (mset bm "highlighted" (removeComment l commentId)) } := by
      simp only [applyTransition, setCommentsModerationForArticles, foldlM_single, hstep]
      simp
    rw [htr]
    constructor
    · simp [bucketOf, scopeBuckets, mget_mset_self, removeComment_of_mem hm]
    · intro isCat2 scope2 b hcond
      cases isCat2 with
      | true => simp [bucketOf, scopeBuckets]
      | false =>
        by_cases hsc : scope2 = scope
        · subst hsc
          have hbne : b ≠ "highlighted" := hcond rfl rfl
          simp [bucketOf, scopeBuckets, mget_mset_self, hs,
            mget_mset_ne _ _ _ _ hbne]
        · simp [bucketOf, scopeBuckets, mget_mset_ne _ _ _ _ hsc]

/-- C1 witness: the amended theorem applied at the concrete state with
category `cat` holding `highlighted = ['c1']`. -/
theorem c1_witness :
    bucketOf (applyTransition (completeLoadCategory initialState "cat" payloadHighlightedC1)
      "cat" true ["c1"] "highlight" "highlighted") true "cat" "highlighted"
      = some (["c1"].erase "c1") ∧
    bucketOf (applyTransition (completeLoadCategory initialState "cat" payloadHighlightedC1)
      "cat" true ["c1"] "highlight" "highlighted") true "cat" "approved"
      = bucketOf (completeLoadCategory initialState "cat" payloadHighlightedC1)
        true "cat" "approved" :=
  ⟨(c1_highlight_on_highlighted_removes
      (completeLoadCategory initialState "cat" payloadHighlightedC1)
      "cat" true "c1" (fromJS payloadHighlightedC1) ["c1"]
      (by decide) (by decide) (by decide)).1,
   (c1_highlight_on_highlighted_removes
      (completeLoadCategory initialState "cat" payloadHighlightedC1)
      "cat" true "c1" (fromJS payloadHighlightedC1) ["c1"]
      (by decide) (by decide) (by decide)).2
     true "cat" "approved" (fun _ _ => by decide)⟩

/-! ### Claim C6: amended theorem -/

/-- C6 (amended): for every scope, every id, and every previousStatus in
{'approved', 'rejected', 'deferred'} whose bucket contains the id exactly
once, `transition` with action `reset` removes the id from that bucket and
adds it to none of the buckets: the previousStatus bucket becomes the list
with the id's occurrence erased (so the id is no longer in it) and every
other bucket of every scope is unchanged.  (For previousStatus
'highlighted' the removal condition is false, so `reset` removes nothing —
see the counterexample.) -/
theorem c6_reset_removes_terminal
    (s : IModeratedCommentsState) (scope : String) (isCategory : Bool)
    (commentId : String) (bm : BucketMap) (l : List String) (prev : String)
    (hprev : prev = "approved" ∨ prev = "rejected" ∨ prev = "deferred")
    (hs : scopeBuckets s isCategory scope = some bm)
    (hb : mget bm prev = some l)
    (hm : commentId ∈ l) (hcount : l.count commentId = 1) :
    bucketOf (applyTransition s scope isCategory [commentId] "reset" prev)
        isCategory scope prev = some (l.erase commentId) ∧
    commentId ∉ l.erase commentId ∧
    ∀ isCat2 scope2 b,
      (isCat2 = isCategory → scope2 = scope → b ≠ prev) →
      bucketOf (applyTransition s scope isCategory [commentId] "reset" prev)
        isCat2 scope2 b = bucketOf s isCat2 scope2 b := by
  have hrm : shouldRemoveFromList prev "reset" = true := by
    rcases hprev with h | h | h <;> subst h <;> decide
  have hnotin : commentId ∉ l.erase commentId := not_mem_erase_of_count_one hcount
  cases isCategory with
  | true =>
    simp only [scopeBuckets, if_pos trivial] at hs
    have hstep : categoryStep scope "reset" prev s.categories commentId
        = Except.ok (mset s.categories scope (mset bm prev (removeComment l commentId))) := by
      simp only [categoryStep, hrm, if_pos trivial, updateIn2_eq_ok hs hb]
      simp [removeComment, categoryInsert]
    have htr : applyTransition s scope true [commentId] "reset" prev
        = { s with categories := mset s.categories scope (mset bm prev (removeComment l commentId)) } := by
      simp only [applyTransition, setCommentsModerationForCategories, foldlM_single, hstep]
      simp
    rw [htr]
    refine ⟨?_, hnotin, ?_⟩
    · simp [bucketOf, scopeBuckets, mget_mset_self, removeComment_of_mem hm]
    · intro isCat2 scope2 b hcond
      cases isCat2 with
      | false => simp [bucketOf, scopeBuckets]
      | true =>
        by_cases hsc : scope2 = scope
        · subst hsc
          have hbne : b ≠ prev := hcond rfl rfl
          simp [bucketOf, scopeBuckets, mget_mset_self, hs,
            mget_mset_ne _ _ _ _ hbne]
        · simp [bucketOf, scopeBuckets, mget_mset_ne _ _ _ _ hsc]
  | false =>
    simp only [scopeBuckets, Bool.false_eq_true, if_false] at hs
    have hstep : articleStep scope "reset" prev s.articles commentId
        = Except.ok (mset s.articles scope (mset bm prev (removeComment l commentId))) := by
      simp only [articleStep, hrm, if_pos trivial, updateIn2_eq_ok hs hb]
      simp [removeComment, articleInsert]
    have htr : applyTransition s scope false [commentId] "reset" prev
        = { s with articles := mset s.articles scope (mset bm prev (removeComment l commentId)) } := by
      simp only [applyTransition, setCommentsModerationForArticles, foldlM_single, hstep]
      simp
    rw [htr]
    refine ⟨?_, hnotin, ?_⟩
    · simp [bucketOf, scopeBuckets, mget_mset_self, removeComment_of_mem hm]
    · intro isCat2 scope2 b hcond
      cases isCat2 with
      | true => simp [bucketOf, scopeBuckets]
      | false =>
        by_cases hsc : scope2 = scope
        · subst hsc
          have hbne : b ≠ prev := hcond rfl rfl
          simp [bucketOf, scopeBuckets, mget_mset_self, hs,
            mget_mset_ne _ _ _ _ hbne]
        · simp [bucketOf, scopeBuckets, mget_mset_ne _ _ _ _ hsc]

/-- C6 witness: the amended theorem applied at the concrete state with
category `cat` holding `rejected = ['c1']`, resetting from `rejected`. -/
theorem c6_witness :
    bucketOf (applyTransition (completeLoadCategory initialState "cat" payloadRejectedC1)
      "cat" true ["c1"] "reset" "rejected") true "cat" "rejected"
      = some (["c1"].erase "c1") ∧
    bucketOf (applyTransition (completeLoadCategory initialState "cat" payloadRejectedC1)
      "cat" true ["c1"] "reset" "rejected") true "cat" "approved"
      = bucketOf (completeLoadCategory initialState "cat" payloadRejectedC1)
        true "cat" "approved" :=
  ⟨(c6_reset_removes_terminal
      (completeLoadCategory initialState "cat" payloadRejectedC1)
      "cat" true "c1" (fromJS payloadRejectedC1) ["c1"] "rejected"
      (by decide) (by decide) (by decide) (by decide) (by decide)).1,
   (c6_reset_removes_terminal
      (completeLoadCategory initialState "cat" payloadRejectedC1)
      "cat" true "c1" (fromJS payloadRejectedC1) ["c1"] "rejected"
      (by decide) (by decide) (by decide) (by decide) (by decide)).2.2
     true "cat" "approved" (fun _ _ => by decide)⟩

/-! ### Step-level preservation lemmas -/

theorem updateIn3Push_ne_ok {m : ScopeMap} {k1 k2 k3 c : String} {m2 : ScopeMap} :
    updateIn3Push m k1 k2 k3 c ≠ Except.ok m2 := by
  intro h
  cases h1 : mget m k1 with
  | none => simp [updateIn3Push, h1] at h
  | some inner =>
    cases h2 : mget inner k2 with
    | none => simp [updateIn3Push, h1, h2] at h
    | some l => simp [updateIn3Push, h1, h2] at h

theorem articleInsert_ok_eq {articleId act cur : String} {m m2 : ScopeMap}
    {cid : String}
    (h : articleInsert articleId act cur m cid = Except.ok m2) : m2 = m := by
  unfold articleInsert at h
  by_cases h1 : act = "reject"
  · rw [if_pos h1] at h
    cases hap : ACTION_PLURAL act with
    | none => simp [hap] at h
    | some b =>
      simp only [hap] at h
      cases hu : updateIn2 m articleId b (pushComment cid) with
      | error e => simp [hu] at h
      | ok m1 =>
        simp only [hu] at h
        injection h with h
        exact h.symm
  · rw [if_neg h1] at h
    by_cases h2 : act = "highlight"
    · rw [if_pos h2] at h
      by_cases h3 : cur = "highlighted"
      · rw [if_pos h3] at h
        injection h with h
        exact h.symm
      · rw [if_neg h3] at h
        cases hap : ACTION_PLURAL act with
        | none => simp [hap] at h
        | some b =>
          simp only [hap] at h
          cases hu : updateIn2 m articleId b (pushComment cid) with
          | error e => simp [hu] at h
          | ok m1 =>
            simp only [hu] at h
            exact absurd h updateIn3Push_ne_ok
    · rw [if_neg h2] at h
      by_cases h3 : act = "reset"
      · rw [if_pos h3] at h
        injection h with h
        exact h.symm
      · rw [if_neg h3] at h
        cases hap : ACTION_PLURAL act with
        | none => simp [hap] at h
        | some b =>
          simp only [hap] at h
          cases hu : updateIn2 m articleId b (pushComment cid) with
          | error e => simp [hu] at h
          | ok m1 =>
            simp only [hu] at h
            injection h with h
            exact h.symm

theorem categoryInsert_flagged {category act cur : String} {m m2 : ScopeMap}
    {cid : String}
    (h : categoryInsert category act cur m cid = Except.ok m2) (sc : String) :
    bucketIn m2 sc "flagged" = bucketIn m sc "flagged" := by
  unfold categoryInsert at h
  by_cases h1 : act = "reject"
  · rw [if_pos h1] at h
    cases hap : ACTION_PLURAL act with
    | none => simp [hap] at h
    | some b =>
      simp only [hap] at h
      exact bucketIn_updateIn2_ne h sc "flagged"
        (Or.inr (Ne.symm (ACTION_PLURAL_ne_flagged hap)))
  · rw [if_neg h1] at h
    by_cases h2 : act = "highlight"
    · rw [if_pos h2] at h
      by_cases h3 : cur = "highlighted"
      · rw [if_pos h3] at h
        injection h with h
        rw [h]
      · rw [if_neg h3] at h
        cases hap : ACTION_PLURAL act with
        | none => simp [hap] at h
        | some b =>
          simp only [hap] at h
          cases hu : updateIn2 m category b (pushComment cid) with
          | error e => simp [hu] at h
          | ok m1 =>
            simp only [hu] at h
            rw [bucketIn_updateIn2_ne h sc "flagged" (Or.inr (by decide)),
              bucketIn_updateIn2_ne hu sc "flagged"
                (Or.inr (Ne.symm (ACTION_PLURAL_ne_flagged hap)))]
    · rw [if_neg h2] at h
      by_cases h3 : act = "reset"
      · rw [if_pos h3] at h
        injection h with h
        rw [h]
      · rw [if_neg h3] at h
        cases hap : ACTION_PLURAL act with
        | none => simp [hap] at h
        | some b =>
          simp only [hap] at h
          exact bucketIn_updateIn2_ne h sc "flagged"
            (Or.inr (Ne.symm (ACTION_PLURAL_ne_flagged hap)))

theorem categoryStep_flagged {category act prev : String} (hprev : prev ≠ "flagged")
    {m m2 : ScopeMap} {cid : String}
    (h : categoryStep category act prev m cid = Except.ok m2) (sc : String) :
    bucketIn m2 sc "flagged" = bucketIn m sc "flagged" := by
  simp only [categoryStep] at h
  by_cases hrm : shouldRemoveFromList prev act = true
  · rw [if_pos hrm] at h
    cases hu : updateIn2 m category prev
        (fun moderated => listDelete moderated (findIndex moderated cid)) with
    | error e => simp [hu] at h
    | ok m1 =>
      simp only [hu] at h
      rw [categoryInsert_flagged h sc,
        bucketIn_updateIn2_ne hu sc "flagged" (Or.inr (Ne.symm hprev))]
  · rw [if_neg hrm] at h
    exact categoryInsert_flagged h sc

theorem articleStep_flagged {articleId act prev : String} (hprev : prev ≠ "flagged")
    {m m2 : ScopeMap} {cid : String}
    (h : articleStep articleId act prev m cid = Except.ok m2) (sc : String) :
    bucketIn m2 sc "flagged" = bucketIn m sc "flagged" := by
  simp only [articleStep] at h
  by_cases hrm : shouldRemoveFromList prev act = true
  · rw [if_pos hrm] at h
    cases hu : updateIn2 m articleId prev
        (fun moderated => listDelete moderated (findIndex moderated cid)) with
    | error e => simp [hu] at h
    | ok m1 =>
      simp only [hu] at h
      rw [articleInsert_ok_eq h,
        bucketIn_updateIn2_ne hu sc "flagged" (Or.inr (Ne.symm hprev))]
  · rw [if_neg hrm] at h
    rw [articleInsert_ok_eq h]

/-! ### Claim C9: amended theorem -/

/-- C9 (amended): for every scope, every batch of ids, and every action,
`transition` with `previousStatus ≠ 'flagged'` leaves the `flagged` bucket
of every scope unchanged: the removal step only touches the
`previousStatus` bucket, and no insertion branch ever targets `flagged`
(the inserted bucket names are values of `ACTION_PLURAL` or the literal
`'approved'`).  With `previousStatus = 'flagged'` the removal step does
mutate `flagged` — see the counterexample. -/
theorem c9_flagged_unchanged
    (s : IModeratedCommentsState) (scope : String) (isCategory : Bool)
    (commentIds : List String) (act prev : String) (hprev : prev ≠ "flagged") :
    ∀ isCat2 sc,
      bucketOf (applyTransition s scope isCategory commentIds act prev) isCat2 sc "flagged"
        = bucketOf s isCat2 sc "flagged" := by
  intro isCat2 sc
  cases isCategory with
  | true =>
    unfold applyTransition
    simp only [if_pos trivial]
    cases hres : setCommentsModerationForCategories s scope commentIds act prev with
    | error e => rfl
    | ok t =>
      unfold setCommentsModerationForCategories at hres
      cases hf : commentIds.foldlM (categoryStep scope act prev) s.categories with
      | error e => rw [hf] at hres; exact Except.noConfusion hres
      | ok c =>
        simp only [hf] at hres
        injection hres with hres
        subst hres
        have hP : ∀ sc2, bucketIn c sc2 "flagged" = bucketIn s.categories sc2 "flagged" :=
          foldlM_preserves (categoryStep scope act prev)
            (fun m m2 => ∀ sc2, bucketIn m2 sc2 "flagged" = bucketIn m sc2 "flagged")
            (fun _ _ => rfl)
            (fun _ _ _ hab hbc sc2 => (hbc sc2).trans (hab sc2))
            (fun _ _ a hstep sc2 => categoryStep_flagged hprev hstep sc2)
            commentIds s.categories c hf
        cases isCat2 with
        | true =>
          rw [bucketOf_eq_bucketIn, bucketOf_eq_bucketIn]
          simpa using hP sc
        | false =>
          simp [bucketOf, scopeBuckets]
  | false =>
    unfold applyTransition
    simp only [Bool.false_eq_true, if_false]
    cases hres : setCommentsModerationForArticles s scope commentIds act prev with
    | error e => rfl
    | ok t =>
      unfold setCommentsModerationForArticles at hres
      cases hf : commentIds.foldlM (articleStep scope act prev) s.articles with
      | error e => rw [hf] at hres; exact Except.noConfusion hres
      | ok c =>
        simp only [hf] at hres
        injection hres with hres
        subst hres
        have hP : ∀ sc2, bucketIn c sc2 "flagged" = bucketIn s.articles sc2 "flagged" :=
          foldlM_preserves (articleStep scope act prev)
            (fun m m2 => ∀ sc2, bucketIn m2 sc2 "flagged" = bucketIn m sc2 "flagged")
            (fun _ _ => rfl)
            (fun _ _ _ hab hbc sc2 => (hbc sc2).trans (hab sc2))
            (fun _ _ a hstep sc2 => articleStep_flagged hprev hstep sc2)
            commentIds s.articles c hf
        cases isCat2 with
        | false =>
          rw [bucketOf_eq_bucketIn, bucketOf_eq_bucketIn]
          simpa using hP sc
        | true =>
          simp [bucketOf, scopeBuckets]

/-- C9 witness: the amended theorem applied at the concrete state with
category `cat` holding `flagged = ['c1']` and an approve transition from
`rejected`. -/
theorem c9_witness :
    bucketOf (applyTransition (completeLoadCategory initialState "cat" payloadFlaggedC1)
      "cat" true ["c1"] "approve" "rejected") true "cat" "flagged"
      = bucketOf (completeLoadCategory initialState "cat" payloadFlaggedC1)
        true "cat" "flagged" :=
  c9_flagged_unchanged (completeLoadCategory initialState "cat" payloadFlaggedC1)
    "cat" true ["c1"] "approve" "rejected" (by decide) true "cat"

/-! ### Claim C10 -/

/-- C10: for every store state and every scope key not present in the
corresponding scope map (articles when the params are an article context,
categories otherwise), `getModeratedComments` returns the synthesized
state with exactly the seven named buckets, each an empty sequence (and in
particular a total value, never a missing one). -/
theorem c10_missing_scope_empty_buckets
    (s : IModeratedCommentsState) (isArticleCtx : Bool) (contextId : String)
    (h : (if isArticleCtx then mget s.articles contextId
          else mget s.categories contextId) = none) :
    getModeratedComments s isArticleCtx contextId = emptyBuckets ∧
    emptyBuckets.map Prod.fst = sevenNames ∧
    ∀ b l, mget emptyBuckets b = some l → l = [] := by
  refine ⟨?_, rfl, ?_⟩
  · cases isArticleCtx with
    | true =>
      simp only [if_pos trivial] at h
      simp [getModeratedComments, h]
    | false =>
      simp only [Bool.false_eq_true, if_false] at h
      simp [getModeratedComments, h]
  · intro b l hb
    simp only [emptyBuckets, mget] at hb
    split_ifs at hb <;> (injection hb with hb; exact hb.symm)

/-- C10 witness: the theorem applied to the initial store state and the
unloaded article key `zzz`. -/
theorem c10_witness :
    getModeratedComments initialState true "zzz" = emptyBuckets :=
  (c10_missing_scope_empty_buckets initialState true "zzz" (by decide)).1

/-! ### Reachable states and the seven-bucket invariant -/

/-- States reachable from `initialState` by dispatching the reducer's
actions. -/
inductive Reachable : IModeratedCommentsState → Prop where
  | init : Reachable initialState
  | start {s : IModeratedCommentsState} : Reachable s → Reachable (startLoad s)
  | loadArticle {s : IModeratedCommentsState} (articleId : String)
      (m : IModeratedComments) : Reachable s →
      Reachable (completeLoadArticle s articleId m)
  | loadCategory {s : IModeratedCommentsState} (category : String)
      (m : IModeratedComments) : Reachable s →
      Reachable (completeLoadCategory s category m)
  | step {s : IModeratedCommentsState} (scope : String) (isCategory : Bool)
      (commentIds : List String) (act prev : String) : Reachable s →
      Reachable (applyTransition s scope isCategory commentIds act prev)

/-- Every scope entry of the map carries exactly the seven bucket names. -/
def BucketsSeven (m : ScopeMap) : Prop :=
  ∀ sc bm, mget m sc = some bm → bm.map Prod.fst = sevenNames

theorem fromJS_keys (m : IModeratedComments) :
    (fromJS m).map Prod.fst = sevenNames := rfl

theorem bucketsSeven_mset {m : ScopeMap} (k : String) (v : BucketMap)
    (hm : BucketsSeven m) (hv : v.map Prod.fst = sevenNames) :
    BucketsSeven (mset m k v) := by
  intro sc bm hbm
  by_cases hsc : sc = k
  · subst hsc
    rw [mget_mset_self] at hbm
    cases hbm
    exact hv
  · rw [mget_mset_ne _ _ _ _ hsc] at hbm
    exact hm sc bm hbm

theorem bucketsSeven_updateIn2 {m m2 : ScopeMap} {k1 k2 : String}
    {f : List String → List String}
    (h : updateIn2 m k1 k2 f = Except.ok m2) (hm : BucketsSeven m) :
    BucketsSeven m2 := by
  intro sc bm2 hbm2
  obtain ⟨hsome, hkeys⟩ := updateIn2_keys h sc
  cases hbm : mget m sc with
  | none =>
    rw [hbm] at hsome
    rw [hbm2] at hsome
    simp at hsome
  | some bm =>
    rw [hkeys bm2 bm hbm2 hbm]
    exact hm sc bm hbm

theorem categoryInsert_bucketsSeven {category act cur : String}
    {m m2 : ScopeMap} {cid : String}
    (h : categoryInsert category act cur m cid = Except.ok m2)
    (hm : BucketsSeven m) : BucketsSeven m2 := by
  unfold categoryInsert at h
  by_cases h1 : act = "reject"
  · rw [if_pos h1] at h
    cases hap : ACTION_PLURAL act with
    | none => simp [hap] at h
    | some b =>
      simp only [hap] at h
      exact bucketsSeven_updateIn2 h hm
  · rw [if_neg h1] at h
    by_cases h2 : act = "highlight"
    · rw [if_pos h2] at h
      by_cases h3 : cur = "highlighted"
      · rw [if_pos h3] at h
        injection h with h
        rw [← h]
        exact hm
      · rw [if_neg h3] at h
        cases hap : ACTION_PLURAL act with
        | none => simp [hap] at h
        | some b =>
          simp only [hap] at h
          cases hu : updateIn2 m category b (pushComment cid) with
          | error e => simp [hu] at h
          | ok m1 =>
            simp only [hu] at h
            exact bucketsSeven_updateIn2 h (bucketsSeven_updateIn2 hu hm)
    · rw [if_neg h2] at h
      by_cases h3 : act = "reset"
      · rw [if_pos h3] at h
        injection h with h
        rw [← h]
        exact hm
      · rw [if_neg h3] at h
        cases hap : ACTION_PLURAL act with
        | none => simp [hap] at h
        | some b =>
          simp only [hap] at h
          exact bucketsSeven_updateIn2 h hm

theorem categoryStep_bucketsSeven {category act prev : String}
    {m m2 : ScopeMap} {cid : String}
    (h : categoryStep category act prev m cid = Except.ok m2)
    (hm : BucketsSeven m) : BucketsSeven m2 := by
  simp only [categoryStep] at h
  by_cases hrm : shouldRemoveFromList prev act = true
  · rw [if_pos hrm] at h
    cases hu : updateIn2 m category prev
        (fun moderated => listDelete moderated (findIndex moderated cid)) with
    | error e => simp [hu] at h
    | ok m1 =>
      simp only [hu] at h
      exact categoryInsert_bucketsSeven h (bucketsSeven_updateIn2 hu hm)
  · rw [if_neg hrm] at h
    exact categoryInsert_bucketsSeven h hm

theorem articleStep_bucketsSeven {articleId act prev : String}
    {m m2 : ScopeMap} {cid : String}
    (h : articleStep articleId act prev m cid = Except.ok m2)
    (hm : BucketsSeven m) : BucketsSeven m2 := by
  simp only [articleStep] at h
  by_cases hrm : shouldRemoveFromList prev act = true
  · rw [if_pos hrm] at h
    cases hu : updateIn2 m articleId prev
        (fun moderated => listDelete moderated (findIndex moderated cid)) with
    | error e => simp [hu] at h
    | ok m1 =>
      simp only [hu] at h
      rw [articleInsert_ok_eq h]
      exact bucketsSeven_updateIn2 hu hm
  · rw [if_neg hrm] at h
    rw [articleInsert_ok_eq h]
    exact hm

theorem applyTransition_bucketsSeven (s : IModeratedCommentsState)
    (scope : String) (isCategory : Bool) (commentIds : List String)
    (act prev : String)
    (hm : BucketsSeven s.articles ∧ BucketsSeven s.categories) :
    BucketsSeven (applyTransition s scope isCategory commentIds act prev).articles ∧
    BucketsSeven (applyTransition s scope isCategory commentIds act prev).categories := by
  cases isCategory with
  | true =>
    unfold applyTransition
    simp only [if_pos trivial]
    cases hres : setCommentsModerationForCategories s scope commentIds act prev with
    | error e => exact hm
    | ok t =>
      unfold setCommentsModerationForCategories at hres
      cases hf : commentIds.foldlM (categoryStep scope act prev) s.categories with
      | error e => rw [hf] at hres; exact Except.noConfusion hres
      | ok c =>
        simp only [hf] at hres
        injection hres with hres
        subst hres
        refine ⟨hm.1, ?_⟩
        exact foldlM_preserves (categoryStep scope act prev)
          (fun m m2 => BucketsSeven m → BucketsSeven m2)
          (fun _ hx => hx)
          (fun _ _ _ hab hbc hx => hbc (hab hx))
          (fun _ _ a hstep hx => categoryStep_bucketsSeven hstep hx)
          commentIds s.categories c hf hm.2
  | false =>
    unfold applyTransition
    simp only [Bool.false_eq_true, if_false]
    cases hres : setCommentsModerationForArticles s scope commentIds act prev with
    | error e => exact hm
    | ok t =>
      unfold setCommentsModerationForArticles at hres
      cases hf : commentIds.foldlM (articleStep scope act prev) s.articles with
      | error e => rw [hf] at hres; exact Except.noConfusion hres
      | ok c =>
        simp only [hf] at hres
        injection hres with hres
        subst hres
        refine ⟨?_, hm.2⟩
        exact foldlM_preserves (articleStep scope act prev)
          (fun m m2 => BucketsSeven m → BucketsSeven m2)
          (fun _ hx => hx)
          (fun _ _ _ hab hbc hx => hbc (hab hx))
          (fun _ _ a hstep hx => articleStep_bucketsSeven hstep hx)
          commentIds s.articles c hf hm.1

/-! ### Claim C7 -/

/-- C7: for every sequence of load and transition operations starting from
the initial state, every scope entry of both scope maps carries exactly the
seven bucket names `approved`, `highlighted`, `rejected`, `deferred`,
`flagged`, `batched`, `automated` (in particular no operation ever creates
a bucket under any other name: loads install exactly the seven, and a
transition that would touch a missing bucket throws, leaving the state
unchanged). -/
theorem c7_reachable_seven_buckets
    (s : IModeratedCommentsState) (h : Reachable s) :
    ∀ (isCategory : Bool) (scope : String) (bm : BucketMap),
      scopeBuckets s isCategory scope = some bm →
      bm.map Prod.fst = sevenNames := by
  have hinv : BucketsSeven s.articles ∧ BucketsSeven s.categories := by
    induction h with
    | init =>
      exact ⟨fun sc bm hx => by simp [initialState, mget] at hx,
        fun sc bm hx => by simp [initialState, mget] at hx⟩
    | start _ ih => exact ih
    | loadArticle articleId m _ ih =>
      exact ⟨bucketsSeven_mset articleId (fromJS m) ih.1 (fromJS_keys m), ih.2⟩
    | loadCategory category m _ ih =>
      exact ⟨ih.1, bucketsSeven_mset category (fromJS m) ih.2 (fromJS_keys m)⟩
    | step scope isCategory commentIds act prev _ ih =>
      exact applyTransition_bucketsSeven _ scope isCategory commentIds act prev ih
  intro isCategory scope bm hbm
  cases isCategory with
  | true =>
    simp only [scopeBuckets, if_pos trivial] at hbm
    exact hinv.2 scope bm hbm
  | false =>
    simp only [scopeBuckets, Bool.false_eq_true, if_false] at hbm
    exact hinv.1 scope bm hbm

/-- C7 witness: the theorem applied to the reachable state obtained by one
category load, at the loaded scope. -/
theorem c7_witness :
    (fromJS payloadEmpty).map Prod.fst = sevenNames :=
  c7_reachable_seven_buckets (completeLoadCategory initialState "cat" payloadEmpty)
    (Reachable.loadCategory "cat" payloadEmpty Reachable.init)
    true "cat" (fromJS payloadEmpty) (by decide)

/-! ### Claim C8: batches of transitions and permutation invariance -/

/-- A single-id transition request: the claim's batch elements. -/
structure ModOp where
  id : String
  action : String
  prev : String
deriving DecidableEq, Repr

/-- `transition` of one batch element on a fixed scope. -/
def applyOp (scope : String) (isCategory : Bool)
    (s : IModeratedCommentsState) (o : ModOp) : IModeratedCommentsState :=
  applyTransition s scope isCategory [o.id] o.action o.prev

/-- Apply a batch of single-id transitions in sequence. -/
def runOps (scope : String) (isCategory : Bool)
    (s : IModeratedCommentsState) (ops : List ModOp) : IModeratedCommentsState :=
  ops.foldl (applyOp scope isCategory) s

/-- Occurrence count of an id in one bucket of one scope of a scope map. -/
def cntIn (m : ScopeMap) (sc b id : String) : Nat :=
  match bucketIn m sc b with
  | none => 0
  | some l => l.count id

/-- Membership of an id in one bucket of one scope of the store. -/
def memBucket (s : IModeratedCommentsState) (isCategory : Bool)
    (sc b id : String) : Prop :=
  match bucketOf s isCategory sc b with
  | none => False
  | some l => id ∈ l

/-- A scope key is bound in the map to a bucket map with the seven keys. -/
def ScopeSeven (m : ScopeMap) (scope : String) : Prop :=
  ∃ bm, mget m scope = some bm ∧ bm.map Prod.fst = sevenNames

/-- Whether the insertion switch succeeds, given a seven-bucket scope. -/
def insertOk (isCategory : Bool) (o : ModOp) : Bool :=
  if o.action = "reject" then true
  else if o.action = "highlight" then (o.prev = "highlighted" || isCategory)
  else if o.action = "reset" then true
  else o.action = "approve" || o.action = "defer"

/-- Whether the whole per-id step succeeds, given a seven-bucket scope. -/
def opOk (isCategory : Bool) (o : ModOp) : Bool :=
  (!(shouldRemoveFromList o.prev o.action) || decide (o.prev ∈ sevenNames)) &&
  insertOk isCategory o

/-- Buckets appended to by a successful insertion switch (empty on article
scopes, where every successful push is discarded). -/
def opInserts (isCategory : Bool) (o : ModOp) : List String :=
  if isCategory = false then []
  else if o.action = "reject" then ["rejected"]
  else if o.action = "highlight" then
    (if o.prev = "highlighted" then [] else ["highlighted", "approved"])
  else if o.action = "reset" then []
  else if o.action = "approve" then ["approved"]
  else if o.action = "defer" then ["deferred"]
  else []

/-- Count change of a successful per-id step. -/
def opDeltaCore (isCategory : Bool) (o : ModOp) (b id : String) : Int :=
  (if shouldRemoveFromList o.prev o.action = true ∧ b = o.prev ∧ id = o.id
    then -1 else 0)
  + (if b ∈ opInserts isCategory o ∧ id = o.id then 1 else 0)

/-- Count change of a per-id step (zero when the step throws). -/
def opDelta (isCategory : Bool) (o : ModOp) (b id : String) : Int :=
  if opOk isCategory o = true then opDeltaCore isCategory o b id else 0

theorem mget_isSome_iff_mem_keys {α : Type} (m : List (String × α)) (k : String) :
    (mget m k).isSome = true ↔ k ∈ m.map Prod.fst := by
  induction m with
  | nil => simp [mget]
  | cons p rest ih =>
    obtain ⟨k1, v1⟩ := p
    by_cases h : k1 = k
    · subst h
      simp [mget]
    · have hne : ¬(k = k1) := fun he => h he.symm
      simp [mget, h, ih, hne]

/-- The scope map changed only inside `scope`, with per-bucket count
change `d`. -/
def ShapeDelta (m m2 : ScopeMap) (scope : String)
    (d : String → String → Int) : Prop :=
  (∀ sc b id, (cntIn m2 sc b id : Int)
      = cntIn m sc b id + (if sc = scope then d b id else 0)) ∧
  (∀ sc b, sc ≠ scope → bucketIn m2 sc b = bucketIn m sc b) ∧
  (∀ b, (bucketIn m2 scope b).isSome = (bucketIn m scope b).isSome)

theorem shapeDelta_refl (m : ScopeMap) (scope : String) :
    ShapeDelta m m scope (fun _ _ => 0) := by
  refine ⟨fun sc b id => by simp, fun _ _ _ => rfl, fun _ => rfl⟩

theorem shapeDelta_comp {m m1 m2 : ScopeMap} {scope : String}
    {d1 d2 : String → String → Int}
    (h1 : ShapeDelta m m1 scope d1) (h2 : ShapeDelta m1 m2 scope d2) :
    ShapeDelta m m2 scope (fun b id => d1 b id + d2 b id) := by
  refine ⟨fun sc b id => ?_, fun sc b hsc => (h2.2.1 sc b hsc).trans (h1.2.1 sc b hsc),
    fun b => (h2.2.2 b).trans (h1.2.2 b)⟩
  have := h1.1 sc b id
  have := h2.1 sc b id
  by_cases hsc : sc = scope <;> simp_all <;> omega

theorem updateIn2_ok_of_some {m : ScopeMap} {scope bkt : String} {bm : BucketMap}
    (h1 : mget m scope = some bm) (h2 : (mget bm bkt).isSome = true)
    (f : List String → List String) :
    ∃ m2, updateIn2 m scope bkt f = Except.ok m2 := by
  obtain ⟨l, hl⟩ := Option.isSome_iff_exists.mp h2
  exact ⟨_, updateIn2_eq_ok h1 hl⟩

theorem updateIn2_error_of_none {m : ScopeMap} {scope bkt : String} {bm : BucketMap}
    (h1 : mget m scope = some bm) (h2 : mget bm bkt = none)
    (f : List String → List String) :
    updateIn2 m scope bkt f = Except.error () := by
  simp [updateIn2, h1, h2]

theorem scopeSeven_updateIn2 {m m2 : ScopeMap} {scope k1 k2 : String}
    {f : List String → List String}
    (h : updateIn2 m k1 k2 f = Except.ok m2) (h7 : ScopeSeven m scope) :
    ScopeSeven m2 scope := by
  obtain ⟨bm, hbm, hkeys⟩ := h7
  obtain ⟨hsome, hk⟩ := updateIn2_keys h scope
  cases hbm2 : mget m2 scope with
  | none => rw [hbm2, hbm] at hsome; simp at hsome
  | some bm2 => exact ⟨bm2, hbm2, (hk bm2 bm hbm2 hbm).trans hkeys⟩

theorem shapeDelta_push {m m2 : ScopeMap} {scope bkt cid : String}
    (h : updateIn2 m scope bkt (pushComment cid) = Except.ok m2) :
    ShapeDelta m m2 scope (fun b id => if b = bkt ∧ id = cid then 1 else 0) := by
  obtain ⟨inner, l, h1, h2, hm2⟩ := updateIn2_ok_inv h
  have hb2 : bucketIn m2 scope bkt = some (l ++ [cid]) := by
    rw [hm2]
    simp [bucketIn, mget_mset_self, pushComment]
  have hb1 : bucketIn m scope bkt = some l := by
    simp [bucketIn, h1, h2]
  refine ⟨?_, fun sc b hsc => bucketIn_updateIn2_ne h sc b (Or.inl hsc), ?_⟩
  · intro sc b id
    by_cases hsc : sc = scope
    · rw [hsc]
      by_cases hb : b = bkt
      · rw [hb]
        have hc2 : cntIn m2 scope bkt id = List.count id (l ++ [cid]) := by
          simp [cntIn, hb2]
        have hc1 : cntIn m scope bkt id = List.count id l := by
          simp [cntIn, hb1]
        rw [hc2, hc1]
        by_cases hid : id = cid
        · rw [hid]
          simp [List.count_append]
        · have hne : cid ≠ id := fun he => hid he.symm
          simp [List.count_append, hid, List.count_singleton', hne]
      · have hbb : bucketIn m2 scope b = bucketIn m scope b :=
          bucketIn_updateIn2_ne h scope b (Or.inr hb)
        simp [cntIn, hbb, hb]
    · have hbb : bucketIn m2 sc b = bucketIn m sc b :=
        bucketIn_updateIn2_ne h sc b (Or.inl hsc)
      simp [cntIn, hbb, hsc]
  · intro b
    by_cases hb : b = bkt
    · rw [hb, hb2, hb1]
      rfl
    · rw [bucketIn_updateIn2_ne h scope b (Or.inr hb)]

theorem shapeDelta_remove {m m2 : ScopeMap} {scope prev cid : String}
    (h : updateIn2 m scope prev
      (fun moderated => listDelete moderated (findIndex moderated cid))
      = Except.ok m2)
    (hgood : ∀ l, bucketIn m scope prev = some l → cid ∈ l) :
    ShapeDelta m m2 scope (fun b id => if b = prev ∧ id = cid then -1 else 0) := by
  obtain ⟨inner, l, h1, h2, hm2⟩ := updateIn2_ok_inv h
  have hb1 : bucketIn m scope prev = some l := by
    simp [bucketIn, h1, h2]
  have hmem : cid ∈ l := hgood l hb1
  have herase : removeComment l cid = l.erase cid := removeComment_of_mem hmem
  have hb2 : bucketIn m2 scope prev = some (l.erase cid) := by
    rw [hm2]
    simp only [bucketIn, mget_mset_self]
    rw [show listDelete l (findIndex l cid) = l.erase cid from herase]
  refine ⟨?_, fun sc b hsc => bucketIn_updateIn2_ne h sc b (Or.inl hsc), ?_⟩
  · intro sc b id
    by_cases hsc : sc = scope
    · rw [hsc]
      by_cases hb : b = prev
      · rw [hb]
        have hc2 : cntIn m2 scope prev id = List.count id (l.erase cid) := by
          simp [cntIn, hb2]
        have hc1 : cntIn m scope prev id = List.count id l := by
          simp [cntIn, hb1]
        rw [hc2, hc1]
        by_cases hid : id = cid
        · have hpos : 0 < List.count cid l := List.count_pos_iff.mpr hmem
          simp [hid, List.count_erase_self]
          omega
        · rw [List.count_erase_of_ne hid]
          simp [hid]
      · have hbb : bucketIn m2 scope b = bucketIn m scope b :=
          bucketIn_updateIn2_ne h scope b (Or.inr hb)
        simp [cntIn, hbb, hb]
    · have hbb : bucketIn m2 sc b = bucketIn m sc b :=
        bucketIn_updateIn2_ne h sc b (Or.inl hsc)
      simp [cntIn, hbb, hsc]
  · intro b
    by_cases hb : b = prev
    · rw [hb, hb2, hb1]
      rfl
    · rw [bucketIn_updateIn2_ne h scope b (Or.inr hb)]

theorem shapeDelta_congr {m m2 : ScopeMap} {scope : String}
    {d1 d2 : String → String → Int}
    (hd : ∀ b id, d1 b id = d2 b id) (h : ShapeDelta m m2 scope d1) :
    ShapeDelta m m2 scope d2 := by
  refine ⟨fun sc b id => ?_, h.2.1, h.2.2⟩
  have heq := h.1 sc b id
  rw [hd b id] at heq
  exact heq

theorem updateIn3Push_error (m : ScopeMap) (k1 k2 k3 c : String) :
    updateIn3Push m k1 k2 k3 c = Except.error () := by
  cases h1 : mget m k1 with
  | none => simp [updateIn3Push, h1]
  | some inner =>
    cases h2 : mget inner k2 with
    | none => simp [updateIn3Push, h1, h2]
    | some l => simp [updateIn3Push, h1, h2]

theorem scopeSeven_bucket {m : ScopeMap} {scope : String} {bm : BucketMap}
    (hbm : mget m scope = some bm) (hkeys : bm.map Prod.fst = sevenNames)
    (bkt : String) (hmem : bkt ∈ sevenNames) :
    (mget bm bkt).isSome = true := by
  rw [mget_isSome_iff_mem_keys, hkeys]
  exact hmem

theorem scopeSeven_bucket_none {m : ScopeMap} {scope : String} {bm : BucketMap}
    (hbm : mget m scope = some bm) (hkeys : bm.map Prod.fst = sevenNames)
    (bkt : String) (hmem : bkt ∉ sevenNames) :
    mget bm bkt = none := by
  cases hx : mget bm bkt with
  | none => rfl
  | some l =>
    exfalso
    apply hmem
    rw [← hkeys, ← mget_isSome_iff_mem_keys, hx]
    rfl

theorem categoryInsert_shape (o : ModOp) {scope : String} {m : ScopeMap}
    (h7 : ScopeSeven m scope) :
    (insertOk true o = true →
      ∃ m2, categoryInsert scope o.action o.prev m o.id = Except.ok m2 ∧
        ShapeDelta m m2 scope
          (fun b id => if b ∈ opInserts true o ∧ id = o.id then 1 else 0) ∧
        ScopeSeven m2 scope) ∧
    (insertOk true o = false →
      categoryInsert scope o.action o.prev m o.id = Except.error ()) := by
  obtain ⟨bm, hbm, hkeys⟩ := h7
  by_cases h1 : o.action = "reject"
  · constructor
    · intro _hok
      obtain ⟨m2, hm2⟩ := updateIn2_ok_of_some hbm
        (scopeSeven_bucket hbm hkeys "rejected" (by decide)) (pushComment o.id)
      refine ⟨m2, ?_, ?_, scopeSeven_updateIn2 hm2 ⟨bm, hbm, hkeys⟩⟩
      · simp only [categoryInsert, h1, if_pos rfl]
        simpa [ACTION_PLURAL] using hm2
      · refine shapeDelta_congr ?_ (shapeDelta_push hm2)
        intro b id
        simp [opInserts, h1]
    · intro hok
      simp [insertOk, h1] at hok
  · by_cases h2 : o.action = "highlight"
    · by_cases h3 : o.prev = "highlighted"
      · constructor
        · intro _hok
          refine ⟨m, ?_, ?_, ⟨bm, hbm, hkeys⟩⟩
          · simp [categoryInsert, h1, h2, h3]
          · refine shapeDelta_congr ?_ (shapeDelta_refl m scope)
            intro b id
            simp [opInserts, h1, h2, h3]
        · intro hok
          simp [insertOk, h1, h2, h3] at hok
      · constructor
        · intro _hok
          obtain ⟨m1, hm1⟩ := updateIn2_ok_of_some hbm
            (scopeSeven_bucket hbm hkeys "highlighted" (by decide)) (pushComment o.id)
          obtain ⟨bm1, hbm1, hkeys1⟩ := scopeSeven_updateIn2 hm1 ⟨bm, hbm, hkeys⟩
          obtain ⟨m2, hm2⟩ := updateIn2_ok_of_some hbm1
            (scopeSeven_bucket hbm1 hkeys1 "approved" (by decide)) (pushComment o.id)
          refine ⟨m2, ?_, ?_, scopeSeven_updateIn2 hm2 ⟨bm1, hbm1, hkeys1⟩⟩
          · simp only [categoryInsert, h1, h2, h3, if_neg, if_pos rfl]
            simp only [ACTION_PLURAL, h2, if_pos rfl]
            simp [h1, h3, hm1, hm2]
          · refine shapeDelta_congr ?_
              (shapeDelta_comp (shapeDelta_push hm1) (shapeDelta_push hm2))
            intro b id
            simp only [opInserts, h2, h3]
            by_cases hid : id = o.id
            · by_cases hbh : b = "highlighted"
              · simp [hbh, hid]
              · by_cases hba : b = "approved"
                · simp [hba, hid]
                · simp [hbh, hba, hid]
            · simp [hid]
        · intro hok
          simp [insertOk, h1, h2, h3] at hok
    · by_cases h3 : o.action = "reset"
      · constructor
        · intro _hok
          refine ⟨m, ?_, ?_, ⟨bm, hbm, hkeys⟩⟩
          · simp [categoryInsert, h1, h2, h3]
          · refine shapeDelta_congr ?_ (shapeDelta_refl m scope)
            intro b id
            simp [opInserts, h1, h2, h3]
        · intro hok
          simp [insertOk, h1, h2, h3] at hok
      · by_cases h4 : o.action = "approve"
        · constructor
          · intro _hok
            obtain ⟨m2, hm2⟩ := updateIn2_ok_of_some hbm
              (scopeSeven_bucket hbm hkeys "approved" (by decide)) (pushComment o.id)
            refine ⟨m2, ?_, ?_, scopeSeven_updateIn2 hm2 ⟨bm, hbm, hkeys⟩⟩
            · simp only [categoryInsert, h1, h2, h3, if_neg]
              simp only [ACTION_PLURAL, h4, h1, h2, h3]
              simp [h1, h2, h3, h4, hm2]
            · refine shapeDelta_congr ?_ (shapeDelta_push hm2)
              intro b id
              simp [opInserts, h1, h2, h3, h4]
          · intro hok
            simp [insertOk, h1, h2, h3, h4] at hok
        · by_cases h5 : o.action = "defer"
          · constructor
            · intro _hok
              obtain ⟨m2, hm2⟩ := updateIn2_ok_of_some hbm
                (scopeSeven_bucket hbm hkeys "deferred" (by decide)) (pushComment o.id)
              refine ⟨m2, ?_, ?_, scopeSeven_updateIn2 hm2 ⟨bm, hbm, hkeys⟩⟩
              · simp only [categoryInsert, h1, h2, h3, if_neg]
                simp only [ACTION_PLURAL, h5, h1, h2, h3, h4]
                simp [h1, h2, h3, h4, h5, hm2]
              · refine shapeDelta_congr ?_ (shapeDelta_push hm2)
                intro b id
                simp [opInserts, h1, h2, h3, h4, h5]
            · intro hok
              simp [insertOk, h1, h2, h3, h4, h5] at hok
          · constructor
            · intro hok
              exfalso
              simp [insertOk, h1, h2, h3, h4, h5] at hok
            · intro _hok
              by_cases h6 : o.action = "tag"
              · have hnone : mget bm "tagged" = none :=
                  scopeSeven_bucket_none hbm hkeys "tagged" (by decide)
                simp only [categoryInsert, h1, h2, h3, if_neg]
                simp only [ACTION_PLURAL, h6, h1, h2, h3, h4, h5]
                simp [h1, h2, h3, updateIn2_error_of_none hbm hnone]
              · have hnone : ACTION_PLURAL o.action = none := by
                  simp [ACTION_PLURAL, h1, h2, h3, h4, h5, h6]
                simp [categoryInsert, h1, h2, h3, hnone]

theorem articleInsert_shape (o : ModOp) {scope : String} {m : ScopeMap}
    (h7 : ScopeSeven m scope) :
    (insertOk false o = true →
      articleInsert scope o.action o.prev m o.id = Except.ok m) ∧
    (insertOk false o = false →
      articleInsert scope o.action o.prev m o.id = Except.error ()) := by
  obtain ⟨bm, hbm, hkeys⟩ := h7
  by_cases h1 : o.action = "reject"
  · constructor
    · intro _hok
      obtain ⟨m2, hm2⟩ := updateIn2_ok_of_some hbm
        (scopeSeven_bucket hbm hkeys "rejected" (by decide)) (pushComment o.id)
      simp only [articleInsert, h1, if_pos rfl]
      simp only [ACTION_PLURAL, h1]
      simp [hm2]
    · intro hok
      simp [insertOk, h1] at hok
  · by_cases h2 : o.action = "highlight"
    · by_cases h3 : o.prev = "highlighted"
      · constructor
        · intro _hok
          simp [articleInsert, h1, h2, h3]
        · intro hok
          simp [insertOk, h1, h2, h3] at hok
      · constructor
        · intro hok
          exfalso
          simp [insertOk, h1, h2, h3] at hok
        · intro _hok
          obtain ⟨m1, hm1⟩ := updateIn2_ok_of_some hbm
            (scopeSeven_bucket hbm hkeys "highlighted" (by decide)) (pushComment o.id)
          simp only [articleInsert, h1, h2, h3, if_neg, if_pos rfl]
          simp only [ACTION_PLURAL, h2, if_pos rfl]
          simp [h1, h3, hm1, updateIn3Push_error]
    · by_cases h3 : o.action = "reset"
      · constructor
        · intro _hok
          simp [articleInsert, h1, h2, h3]
        · intro hok
          simp [insertOk, h1, h2, h3] at hok
      · by_cases h4 : o.action = "approve"
        · constructor
          · intro _hok
            obtain ⟨m2, hm2⟩ := updateIn2_ok_of_some hbm
              (scopeSeven_bucket hbm hkeys "approved" (by decide)) (pushComment o.id)
            simp only [articleInsert, h1, h2, h3, if_neg]
            simp only [ACTION_PLURAL, h4, h1, h2, h3]
            simp [h1, h2, h3, h4, hm2]
          · intro hok
            simp [insertOk, h1, h2, h3, h4] at hok
        · by_cases h5 : o.action = "defer"
          · constructor
            · intro _hok
              obtain ⟨m2, hm2⟩ := updateIn2_ok_of_some hbm
                (scopeSeven_bucket hbm hkeys "deferred" (by decide)) (pushComment o.id)
              simp only [articleInsert, h1, h2, h3, if_neg]
              simp only [ACTION_PLURAL, h5, h1, h2, h3, h4]
              simp [h1, h2, h3, h4, h5, hm2]
            · intro hok
              simp [insertOk, h1, h2, h3, h4, h5] at hok
          · constructor
            · intro hok
              exfalso
              simp [insertOk, h1, h2, h3, h4, h5] at hok
            · intro _hok
              by_cases h6 : o.action = "tag"
              · have hnone : mget bm "tagged" = none :=
                  scopeSeven_bucket_none hbm hkeys "tagged" (by decide)
                simp only [articleInsert, h1, h2, h3, if_neg]
                simp only [ACTION_PLURAL, h6, h1, h2, h3, h4, h5]
                simp [h1, h2, h3, updateIn2_error_of_none hbm hnone]
              · have hnone : ACTION_PLURAL o.action = none := by
                  simp [ACTION_PLURAL, h1, h2, h3, h4, h5, h6]
                simp [articleInsert, h1, h2, h3, hnone]

theorem categoryStep_shape (o : ModOp) {scope : String} {m : ScopeMap}
    (h7 : ScopeSeven m scope)
    (hg : shouldRemoveFromList o.prev o.action = true →
          ∀ l, bucketIn m scope o.prev = some l → o.id ∈ l) :
    (opOk true o = true →
      ∃ m2, categoryStep scope o.action o.prev m o.id = Except.ok m2 ∧
        ShapeDelta m m2 scope (opDeltaCore true o) ∧
        ScopeSeven m2 scope) ∧
    (opOk true o = false →
      categoryStep scope o.action o.prev m o.id = Except.error ()) := by
  by_cases hsr : shouldRemoveFromList o.prev o.action = true
  · by_cases hp7 : o.prev ∈ sevenNames
    · obtain ⟨bm, hbm, hkeys⟩ := h7
      obtain ⟨m1, hm1⟩ := updateIn2_ok_of_some hbm
        (scopeSeven_bucket hbm hkeys o.prev hp7)
        (fun moderated => listDelete moderated (findIndex moderated o.id))
      have hsd1 : ShapeDelta m m1 scope
          (fun b id => if b = o.prev ∧ id = o.id then -1 else 0) :=
        shapeDelta_remove hm1 (hg hsr)
      have h71 : ScopeSeven m1 scope := scopeSeven_updateIn2 hm1 ⟨bm, hbm, hkeys⟩
      have hstep : categoryStep scope o.action o.prev m o.id
          = categoryInsert scope o.action o.prev m1 o.id := by
        simp [categoryStep, hsr, hm1]
      constructor
      · intro hok
        have hins : insertOk true o = true := by
          simp [opOk, hsr, hp7] at hok
          exact hok
        obtain ⟨m2, hm2, hsd2, h72⟩ := (categoryInsert_shape o h71).1 hins
        refine ⟨m2, hstep.trans hm2, ?_, h72⟩
        refine shapeDelta_congr ?_ (shapeDelta_comp hsd1 hsd2)
        intro b id
        simp [opDeltaCore, hsr]
      · intro hok
        have hins : insertOk true o = false := by
          simp [opOk, hsr, hp7] at hok
          exact hok
        exact hstep.trans ((categoryInsert_shape o h71).2 hins)
    · obtain ⟨bm, hbm, hkeys⟩ := h7
      have herr : updateIn2 m scope o.prev
          (fun moderated => listDelete moderated (findIndex moderated o.id))
          = Except.error () :=
        updateIn2_error_of_none hbm
          (scopeSeven_bucket_none hbm hkeys o.prev hp7) _
      have hstep : categoryStep scope o.action o.prev m o.id = Except.error () := by
        simp [categoryStep, hsr, herr]
      constructor
      · intro hok
        exfalso
        simp [opOk, hsr, hp7] at hok
      · intro _hok
        exact hstep
  · have hstep : categoryStep scope o.action o.prev m o.id
        = categoryInsert scope o.action o.prev m o.id := by
      simp [categoryStep, hsr]
    constructor
    · intro hok
      have hins : insertOk true o = true := by
        simp [opOk, hsr] at hok
        exact hok
      obtain ⟨m2, hm2, hsd2, h72⟩ := (categoryInsert_shape o h7).1 hins
      refine ⟨m2, hstep.trans hm2, ?_, h72⟩
      refine shapeDelta_congr ?_ hsd2
      intro b id
      simp [opDeltaCore, hsr]
    · intro hok
      have hins : insertOk true o = false := by
        simp [opOk, hsr] at hok
        exact hok
      exact hstep.trans ((categoryInsert_shape o h7).2 hins)

theorem articleStep_shape (o : ModOp) {scope : String} {m : ScopeMap}
    (h7 : ScopeSeven m scope)
    (hg : shouldRemoveFromList o.prev o.action = true →
          ∀ l, bucketIn m scope o.prev = some l → o.id ∈ l) :
    (opOk false o = true →
      ∃ m2, articleStep scope o.action o.prev m o.id = Except.ok m2 ∧
        ShapeDelta m m2 scope (opDeltaCore false o) ∧
        ScopeSeven m2 scope) ∧
    (opOk false o = false →
      articleStep scope o.action o.prev m o.id = Except.error ()) := by
  by_cases hsr : shouldRemoveFromList o.prev o.action = true
  · by_cases hp7 : o.prev ∈ sevenNames
    · obtain ⟨bm, hbm, hkeys⟩ := h7
      obtain ⟨m1, hm1⟩ := updateIn2_ok_of_some hbm
        (scopeSeven_bucket hbm hkeys o.prev hp7)
        (fun moderated => listDelete moderated (findIndex moderated o.id))
      have hsd1 : ShapeDelta m m1 scope
          (fun b id => if b = o.prev ∧ id = o.id then -1 else 0) :=
        shapeDelta_remove hm1 (hg hsr)
      have h71 : ScopeSeven m1 scope := scopeSeven_updateIn2 hm1 ⟨bm, hbm, hkeys⟩
      have hstep : articleStep scope o.action o.prev m o.id
          = articleInsert scope o.action o.prev m1 o.id := by
        simp [articleStep, hsr, hm1]
      constructor
      · intro hok
        have hins : insertOk false o = true := by
          simp [opOk, hsr, hp7] at hok
          exact hok
        have hid : articleInsert scope o.action o.prev m1 o.id = Except.ok m1 :=
          (articleInsert_shape o h71).1 hins
        refine ⟨m1, hstep.trans hid, ?_, h71⟩
        refine shapeDelta_congr ?_ hsd1
        intro b id
        simp [opDeltaCore, opInserts, hsr]
      · intro hok
        have hins : insertOk false o = false := by
          simp [opOk, hsr, hp7] at hok
          exact hok
        exact hstep.trans ((articleInsert_shape o h71).2 hins)
    · obtain ⟨bm, hbm, hkeys⟩ := h7
      have herr : updateIn2 m scope o.prev
          (fun moderated => listDelete moderated (findIndex moderated o.id))
          = Except.error () :=
        updateIn2_error_of_none hbm
          (scopeSeven_bucket_none hbm hkeys o.prev hp7) _
      have hstep : articleStep scope o.action o.prev m o.id = Except.error () := by
        simp [articleStep, hsr, herr]
      constructor
      · intro hok
        exfalso
        simp [opOk, hsr, hp7] at hok
      · intro _hok
        exact hstep
  · have hstep : articleStep scope o.action o.prev m o.id
        = articleInsert scope o.action o.prev m o.id := by
      simp [articleStep, hsr]
    constructor
    · intro hok
      have hins : insertOk false o = true := by
        simp [opOk, hsr] at hok
        exact hok
      have hid : articleInsert scope o.action o.prev m o.id = Except.ok m :=
        (articleInsert_shape o h7).1 hins
      refine ⟨m, hstep.trans hid, ?_, h7⟩
      refine shapeDelta_congr ?_ (shapeDelta_refl m scope)
      intro b id
      simp [opDeltaCore, opInserts, hsr]
    · intro hok
      have hins : insertOk false o = false := by
        simp [opOk, hsr] at hok
        exact hok
      exact hstep.trans ((articleInsert_shape o h7).2 hins)

/-- The scope map on which a transition of the given kind operates. -/
def sideMap (s : IModeratedCommentsState) (isCategory : Bool) : ScopeMap :=
  if isCategory then s.categories else s.articles

theorem bucketOf_eq_bucketIn_side (s : IModeratedCommentsState)
    (isCategory : Bool) (sc b : String) :
    bucketOf s isCategory sc b = bucketIn (sideMap s isCategory) sc b := by
  cases isCategory <;> simp [bucketOf, scopeBuckets, bucketIn, sideMap]

theorem applyOp_shape (scope : String) (isCat : Bool)
    (s : IModeratedCommentsState) (o : ModOp)
    (h7 : ScopeSeven (sideMap s isCat) scope)
    (hg : shouldRemoveFromList o.prev o.action = true →
          ∀ l, bucketIn (sideMap s isCat) scope o.prev = some l → o.id ∈ l) :
    ShapeDelta (sideMap s isCat) (sideMap (applyOp scope isCat s o) isCat) scope
      (opDelta isCat o) ∧
    ScopeSeven (sideMap (applyOp scope isCat s o) isCat) scope ∧
    sideMap (applyOp scope isCat s o) (!isCat) = sideMap s (!isCat) := by
  cases isCat with
  | true =>
    simp only [sideMap, if_pos trivial] at h7 hg
    by_cases hok : opOk true o = true
    · obtain ⟨m2, hm2, hsd, h72⟩ := (categoryStep_shape o h7 hg).1 hok
      have htr : applyOp scope true s o = { s with categories := m2 } := by
        simp only [applyOp, applyTransition, setCommentsModerationForCategories,
          foldlM_single, hm2]
        simp
      rw [htr]
      refine ⟨?_, ?_, rfl⟩
      · refine shapeDelta_congr ?_ hsd
        intro b id
        simp [opDelta, hok]
      · exact h72
    · have herr := (categoryStep_shape o h7 hg).2 (by simpa using hok)
      have htr : applyOp scope true s o = s := by
        simp only [applyOp, applyTransition, setCommentsModerationForCategories,
          foldlM_single, herr]
        simp
      rw [htr]
      refine ⟨?_, h7, rfl⟩
      refine shapeDelta_congr ?_ (shapeDelta_refl _ scope)
      intro b id
      simp [opDelta, hok]
  | false =>
    simp only [sideMap, Bool.false_eq_true, if_false] at h7 hg
    by_cases hok : opOk false o = true
    · obtain ⟨m2, hm2, hsd, h72⟩ := (articleStep_shape o h7 hg).1 hok
      have htr : applyOp scope false s o = { s with articles := m2 } := by
        simp only [applyOp, applyTransition, setCommentsModerationForArticles,
          foldlM_single, hm2]
        simp
      rw [htr]
      refine ⟨?_, ?_, rfl⟩
      · refine shapeDelta_congr ?_ hsd
        intro b id
        simp [opDelta, hok]
      · exact h72
    · have herr := (articleStep_shape o h7 hg).2 (by simpa using hok)
      have htr : applyOp scope false s o = s := by
        simp only [applyOp, applyTransition, setCommentsModerationForArticles,
          foldlM_single, herr]
        simp
      rw [htr]
      refine ⟨?_, h7, rfl⟩
      refine shapeDelta_congr ?_ (shapeDelta_refl _ scope)
      intro b id
      simp [opDelta, hok]

theorem goodOp_preserved {isCat : Bool} {m m2 : ScopeMap} {scope : String}
    {o o2 : ModOp}
    (hsd : ShapeDelta m m2 scope (opDelta isCat o))
    (hne : o.id ≠ o2.id)
    (hg2 : shouldRemoveFromList o2.prev o2.action = true →
           ∀ l, bucketIn m scope o2.prev = some l → o2.id ∈ l) :
    shouldRemoveFromList o2.prev o2.action = true →
    ∀ l, bucketIn m2 scope o2.prev = some l → o2.id ∈ l := by
  intro hsr l2 hl2
  have hsome : (bucketIn m scope o2.prev).isSome = true := by
    rw [← hsd.2.2]
    simp [hl2]
  obtain ⟨l, hl⟩ := Option.isSome_iff_exists.mp hsome
  have hmem := hg2 hsr l hl
  have hcnt := hsd.1 scope o2.prev o2.id
  rw [if_pos rfl] at hcnt
  have hnid : ¬(o2.id = o.id) := fun he => hne he.symm
  have hdelta : opDelta isCat o o2.prev o2.id = 0 := by
    simp [opDelta, opDeltaCore, hnid]
  rw [hdelta] at hcnt
  have hc2 : cntIn m2 scope o2.prev o2.id = List.count o2.id l2 := by
    simp [cntIn, hl2]
  have hc1 : cntIn m scope o2.prev o2.id = List.count o2.id l := by
    simp [cntIn, hl]
  have hpos : 0 < List.count o2.id l := List.count_pos_iff.mpr hmem
  have hpos2 : 0 < List.count o2.id l2 := by omega
  exact List.count_pos_iff.mp hpos2

theorem runOps_shape (scope : String) (isCat : Bool) :
    ∀ (ops : List ModOp) (s : IModeratedCommentsState),
      ScopeSeven (sideMap s isCat) scope →
      ops.Pairwise (fun a b => a.id ≠ b.id) →
      (∀ o ∈ ops, shouldRemoveFromList o.prev o.action = true →
        ∀ l, bucketIn (sideMap s isCat) scope o.prev = some l → o.id ∈ l) →
      ShapeDelta (sideMap s isCat) (sideMap (runOps scope isCat s ops) isCat) scope
        (fun b id => (ops.map (fun o => opDelta isCat o b id)).sum) ∧
      sideMap (runOps scope isCat s ops) (!isCat) = sideMap s (!isCat)
  | [], s, h7, hpw, hgood => by
    constructor
    · refine shapeDelta_congr ?_ (shapeDelta_refl _ scope)
      intro b id
      simp
    · rfl
  | o :: ops, s, h7, hpw, hgood => by
    have hstep := applyOp_shape scope isCat s o h7 (hgood o (by simp))
    have hpwc := List.pairwise_cons.mp hpw
    have hgood1 : ∀ o2 ∈ ops,
        shouldRemoveFromList o2.prev o2.action = true →
        ∀ l, bucketIn (sideMap (applyOp scope isCat s o) isCat) scope o2.prev
          = some l → o2.id ∈ l :=
      fun o2 ho2 => goodOp_preserved hstep.1 (hpwc.1 o2 ho2)
        (hgood o2 (List.mem_cons_of_mem _ ho2))
    have ih := runOps_shape scope isCat ops (applyOp scope isCat s o)
      hstep.2.1 hpwc.2 hgood1
    have hrun : runOps scope isCat s (o :: ops)
        = runOps scope isCat (applyOp scope isCat s o) ops := rfl
    constructor
    · rw [hrun]
      refine shapeDelta_congr ?_ (shapeDelta_comp hstep.1 ih.1)
      intro b id
      simp
    · rw [hrun]
      exact ih.2.trans hstep.2.2

theorem memBucket_iff_cnt_pos (s : IModeratedCommentsState) (isCat : Bool)
    (sc b id : String) :
    memBucket s isCat sc b id ↔ 0 < cntIn (sideMap s isCat) sc b id := by
  rw [memBucket.eq_def]
  rw [bucketOf_eq_bucketIn_side]
  cases hb : bucketIn (sideMap s isCat) sc b with
  | none => simp [cntIn, hb]
  | some l => simp [cntIn, hb, List.count_pos_iff]

/-- C8 (amended): for every scope and every batch of single-id transitions
with pairwise-distinct ids, pairwise-distinct previous statuses and
pairwise-distinct actions, applied to a loaded scope (its seven buckets
present) in a state where each id occurs in the bucket named by its
previousStatus whenever the removal condition applies, any two orders of
the batch produce final states with the same bucket membership: every
bucket of every scope holds the same set of ids (the order of ids inside a
bucket may differ — see the counterexample). -/
theorem c8_perm_membership
    (s : IModeratedCommentsState) (scope : String) (isCategory : Bool)
    (ops1 ops2 : List ModOp)
    (hperm : ops1.Perm ops2)
    (hids : ops1.Pairwise (fun a b => a.id ≠ b.id))
    (hprevs : ops1.Pairwise (fun a b => a.prev ≠ b.prev))
    (hacts : ops1.Pairwise (fun a b => a.action ≠ b.action))
    (h7 : ScopeSeven (sideMap s isCategory) scope)
    (hgood : ∀ o ∈ ops1, shouldRemoveFromList o.prev o.action = true →
      ∀ l, bucketIn (sideMap s isCategory) scope o.prev = some l → o.id ∈ l) :
    ∀ isCat2 sc b id,
      (memBucket (runOps scope isCategory s ops1) isCat2 sc b id ↔
       memBucket (runOps scope isCategory s ops2) isCat2 sc b id) := by
  have hids2 : ops2.Pairwise (fun a b => a.id ≠ b.id) :=
    (hperm.pairwise_iff (fun {a b} hab => Ne.symm hab)).mp hids
  have hgood2 : ∀ o ∈ ops2, shouldRemoveFromList o.prev o.action = true →
      ∀ l, bucketIn (sideMap s isCategory) scope o.prev = some l → o.id ∈ l :=
    fun o ho => hgood o (hperm.mem_iff.mpr ho)
  have r1 := runOps_shape scope isCategory ops1 s h7 hids hgood
  have r2 := runOps_shape scope isCategory ops2 s h7 hids2 hgood2
  have hsum : ∀ b id,
      (ops1.map (fun o => opDelta isCategory o b id)).sum
        = (ops2.map (fun o => opDelta isCategory o b id)).sum :=
    fun b id => (hperm.map (fun o => opDelta isCategory o b id)).sum_eq
  have hcnt : ∀ sc b id,
      cntIn (sideMap (runOps scope isCategory s ops1) isCategory) sc b id
        = cntIn (sideMap (runOps scope isCategory s ops2) isCategory) sc b id := by
    intro sc b id
    have e1 := r1.1.1 sc b id
    have e2 := r2.1.1 sc b id
    beta_reduce at e1 e2
    rw [hsum b id] at e1
    omega
  intro isCat2 sc b id
  by_cases hside : isCat2 = isCategory
  · rw [hside]
    rw [memBucket_iff_cnt_pos, memBucket_iff_cnt_pos, hcnt sc b id]
  · have hb : isCat2 = !isCategory := by
      cases isCat2 <;> cases isCategory <;> simp_all
    rw [hb]
    rw [memBucket_iff_cnt_pos, memBucket_iff_cnt_pos, r1.2, r2.2]

/-- C8 witness: the amended theorem applied to the concrete three-element
batch of the counterexample and its reversal, read at the `approved`
bucket. -/
theorem c8_witness :
    (memBucket (runOps "cat" true
        (completeLoadCategory initialState "cat" payloadThreeBatch)
        [⟨"c1", "approve", "rejected"⟩, ⟨"c2", "highlight", "deferred"⟩,
         ⟨"c3", "reset", "approved"⟩]) true "cat" "approved" "c1" ↔
     memBucket (runOps "cat" true
        (completeLoadCategory initialState "cat" payloadThreeBatch)
        [⟨"c3", "reset", "approved"⟩, ⟨"c2", "highlight", "deferred"⟩,
         ⟨"c1", "approve", "rejected"⟩]) true "cat" "approved" "c1") :=
  c8_perm_membership (completeLoadCategory initialState "cat" payloadThreeBatch)
    "cat" true
    [⟨"c1", "approve", "rejected"⟩, ⟨"c2", "highlight", "deferred"⟩,
     ⟨"c3", "reset", "approved"⟩]
    [⟨"c3", "reset", "approved"⟩, ⟨"c2", "highlight", "deferred"⟩,
     ⟨"c1", "approve", "rejected"⟩]
    (by decide) (by decide) (by decide) (by decide)
    ⟨fromJS payloadThreeBatch, rfl, rfl⟩
    (by
      intro o ho hsr l hl
      simp only [List.mem_cons, List.not_mem_nil, or_false] at ho
      rcases ho with rfl | rfl | rfl
      · have hx : some ["c1"] = some l := hl
        cases hx
        decide
      · have hx : some ["c2"] = some l := hl
        cases hx
        decide
      · have hx : some ["c3"] = some l := hl
        cases hx
        decide)
    true "cat" "approved" "c1"
